import Mathlib

/-!
# Verification of the VirtualC64 core against its specification

A shallow embedding of the parts of the VirtualC64 source that the
claims C1 to C10 talk about: the D64 file-system device (FSDevice.cpp),
the Am29F040B flash command state machine (FlashRom.h), the snapshot
interval logic (C64.h) and the hardware-component run-state machine.

Machine bytes are modelled as natural numbers; every store truncates
with a remainder by 256, matching the u8 cells of the source.  Code of
the repository that is only declared in the sources at hand (the device
descriptor, FSBlock, FSDirEntry, FlashRom.cpp, HardwareComponent.cpp)
is modelled from the specification text; each such definition carries a
doc comment that starts with: Modelled from the spec.
-/

namespace VC64

/-- A track and sector pair, as used by the file system code.  Track 0
denotes the end of a chain or an exhausted walk. -/
structure BlockRef where
  t : Nat
  s : Nat
  deriving DecidableEq, Repr

/-- Modelled from the spec: the variable sectors-per-track table of a
single-sided single-density disk (FSDeviceDescriptor is not among the
sources).  Track 1 to 17 hold 21 sectors, 18 to 24 hold 19, 25 to 30
hold 18, 31 to 35 hold 17; any other track number is invalid and gets
zero sectors. -/
def sectorsPerTrack (t : Nat) : Nat :=
  if t = 0 ∨ 35 < t then 0
  else if t ≤ 17 then 21
  else if t ≤ 24 then 19
  else if t ≤ 30 then 18
  else 17

/-- Modelled from the spec: blocks are linearized in (track, sector)
order, so the linear number of the first block of track t is the sum of
the sector counts of all earlier tracks. -/
def trackOffset (t : Nat) : Nat :=
  (List.range t).foldl (fun a u => a + sectorsPerTrack u) 0

/-- Modelled from the spec: FSDeviceDescriptor::isTrackSectorPair. -/
def isTrackSectorPair (t s : Nat) : Bool :=
  1 ≤ t && t ≤ 35 && s < sectorsPerTrack t

/-- Modelled from the spec: FSDeviceDescriptor::translateBlockNr from a
(track, sector) pair to a linear block number. -/
def tsToBlock (t s : Nat) : Nat := trackOffset t + s

/-- Translation of a (track, sector) pair to a linear block number,
returning none on an invalid pair; FSDevice::blockPtr(t, s) yields a
null pointer exactly in the none case. -/
def blockNrOf (t s : Nat) : Option Nat :=
  if isTrackSectorPair t s then some (tsToBlock t s) else none

/-- The linear number of the BAM block at track 18, sector 0. -/
def bamBlockNr : Nat := 357

/-- Modelled from the spec: the track visited after track t during
allocation, moving outward from track 17 downward, then from track 19
upward, always skipping track 18; track 0 flags exhaustion. -/
def nextTrack (t : Nat) : Nat :=
  if 2 ≤ t ∧ t ≤ 17 then t - 1
  else if t = 1 then 19
  else if 19 ≤ t ∧ t ≤ 34 then t + 1
  else 0

/-- Modelled from the spec: the next block in allocation order.  From
(t, s) the walk continues at (t, (s + interleave) mod sectorsPerTrack t)
and leaves for the first sector of the next track when that step wraps
around to sector 0. -/
def nextTS (interleave : Nat) (r : BlockRef) : BlockRef :=
  let spt := sectorsPerTrack r.t
  let s' := (r.s + interleave) % spt
  if s' = 0 then ⟨nextTrack r.t, 0⟩ else ⟨r.t, s'⟩

/-- The interleave used for data blocks. -/
def dataInterleave : Nat := 10

/-- Iterated next-block step. -/
def iterTS : Nat → BlockRef → BlockRef
  | 0, r => r
  | n + 1, r => iterTS n (nextTS dataInterleave r)

/-- The error codes of the file system layer that the claims mention. -/
inductive FSError where
  | FS_OK
  | FS_WRONG_CAPACITY
  | FS_DIRECTORY_NOT_EMPTY
  | FS_HAS_NO_FILES
  | FS_CORRUPTED
  deriving DecidableEq, Repr

/-- The block classification returned by FSBlock::type; only the
unknown value matters for the claims. -/
inductive FSBlockType where
  | FS_UNKNOWN_BLOCK
  | FS_BAM_BLOCK
  | FS_DIR_BLOCK
  | FS_DATA_BLOCK
  | FS_EMPTY_BLOCK
  deriving DecidableEq, Repr

/-- The item classification returned by FSBlock::itemType; only the
unused value matters for the claims. -/
inductive FSItemType where
  | FSI_UNUSED
  | FSI_TRACK_LINK
  | FSI_SECTOR_LINK
  | FSI_DATA
  deriving DecidableEq, Repr

/-- The file-system device: a number of 256-byte blocks addressed as
block number and byte offset.  The fields btype, itype and corrupted
stand for the per-block results of FSBlock::type, FSBlock::itemType and
the corrupted counter of a block, which the block-number queries of
FSDevice forward to. -/
structure FSDevice where
  numBlocks : Nat
  data : Nat → Nat → Nat
  btype : Nat → FSBlockType
  itype : Nat → Nat → FSItemType
  corrupted : Nat → Nat

/-- Store one byte; the cell keeps only the low eight bits, as the u8
cells of the source do. -/
def updByte (d : FSDevice) (b o v : Nat) : FSDevice :=
  { d with data := fun b' o' => if b' = b ∧ o' = o then v % 256 else d.data b' o' }

/-- The GET_BIT macro of the source on a byte cell. -/
def getBit (x b : Nat) : Bool := x.testBit b

/-- The SET_BIT macro of the source on a byte cell. -/
def setBit8 (x b : Nat) : Nat := x ||| (1 <<< b)

/-- The CLR_BIT macro of the source on a byte cell (the complement is
taken inside the eight bits of a byte). -/
def clrBit8 (x b : Nat) : Nat := x &&& (255 ^^^ (1 <<< b))

/-- The number of set bits in a byte, looking at the low eight bits. -/
def popc8 (x : Nat) : Nat :=
  (if x.testBit 0 then 1 else 0) + (if x.testBit 1 then 1 else 0) +
  (if x.testBit 2 then 1 else 0) + (if x.testBit 3 then 1 else 0) +
  (if x.testBit 4 then 1 else 0) + (if x.testBit 5 then 1 else 0) +
  (if x.testBit 6 then 1 else 0) + (if x.testBit 7 then 1 else 0)

/-- FSDevice::isFree: reads the allocation bit that
FSDevice::locateAllocationBit places at byte 4t + 1 + s / 8, bit s mod 8
of the BAM block; a set bit means the sector is free. -/
def isFree (d : FSDevice) (r : BlockRef) : Bool :=
  getBit (d.data bamBlockNr (4 * r.t + 1 + r.s / 8)) (r.s % 8)

/-- FSDevice::setAllocationBit(t, s, value): when the bit changes from
clear to set, the sector becomes free and the free counter of the track
(the byte at offset byte and-not 3, written here as byte / 4 * 4) is
incremented; when it changes from set to clear the counter is
decremented; otherwise nothing happens.  The guard reflects the
assertion that (t, s) is a valid pair. -/
def setAllocationBit (t s : Nat) (value : Bool) (d : FSDevice) : FSDevice :=
  if isTrackSectorPair t s then
    let byte := 4 * t + 1 + s / 8
    let bit := s % 8
    let x := d.data bamBlockNr byte
    if value = true ∧ x.testBit bit = false then
      let d1 := updByte d bamBlockNr byte (setBit8 x bit)
      updByte d1 bamBlockNr (byte / 4 * 4) (d1.data bamBlockNr (byte / 4 * 4) + 1)
    else if value = false ∧ x.testBit bit = true then
      let d1 := updByte d bamBlockNr byte (clrBit8 x bit)
      updByte d1 bamBlockNr (byte / 4 * 4) (d1.data bamBlockNr (byte / 4 * 4) + 255)
    else d
  else d

/-- FSDevice::markAsAllocated. -/
def markAsAllocated (t s : Nat) (d : FSDevice) : FSDevice :=
  setAllocationBit t s false d

def isValidRef (r : BlockRef) : Bool := isTrackSectorPair r.t r.s

/-- The loop of FSDevice::nextFreeBlock, with fuel standing in for the
while loop of the source. -/
def nextFreeBlockGo (d : FSDevice) : Nat → BlockRef → BlockRef
  | 0, r => r
  | fuel + 1, r =>
      if r.t ≠ 0 ∧ isFree d r = false then
        nextFreeBlockGo d fuel (nextTS dataInterleave r)
      else r

/-- FSDevice::nextFreeBlock: starting from a valid reference, walk the
next-block order until a free block or the end marker (track 0) is
reached. -/
def nextFreeBlock (d : FSDevice) (r : BlockRef) : BlockRef :=
  if isValidRef r then nextFreeBlockGo d 4096 r else ⟨0, 0⟩

/-- Writing the two link bytes of the block at r, as the allocation loop
of the source does through the data field of the block. -/
def setLink (d : FSDevice) (r tgt : BlockRef) : FSDevice :=
  match blockNrOf r.t r.s with
  | some b => updByte (updByte d b 0 tgt.t) b 1 tgt.s
  | none => d

/-- The for loop inside FSDevice::allocate: collect the current
reference, mark it allocated, link it to the next reference in
next-block order and continue there.  Note that only the first block of
an allocation is found through nextFreeBlock; the loop itself never
consults the BAM again. -/
def allocGo : Nat → FSDevice → BlockRef → List BlockRef × FSDevice
  | 0, d, _ => ([], d)
  | n + 1, d, r =>
      let d1 := markAsAllocated r.t r.s d
      let r' := nextTS dataInterleave r
      let d2 := setLink d1 r r'
      let res := allocGo n d2 r'
      (r :: res.1, res.2)

/-- FSDevice::allocate(ref, n): find the first free block from ref, then
take n blocks in next-block order, and erase the link of the last one. -/
def allocate (d : FSDevice) (start : BlockRef) (n : Nat) : List BlockRef × FSDevice :=
  let r0 := nextFreeBlock d start
  if r0.t = 0 then ([], d)
  else
    let res := allocGo n d r0
    match res.1.getLast? with
    | some last => (res.1, setLink res.2 last ⟨0, 0⟩)
    | none => res

/-- The free counter byte of track t in the BAM block. -/
def bamCount (d : FSDevice) (t : Nat) : Nat := d.data bamBlockNr (4 * t)

/-- The number of set bits in the three bitmap bytes of track t. -/
def bamPop (d : FSDevice) (t : Nat) : Nat :=
  popc8 (d.data bamBlockNr (4 * t + 1)) + popc8 (d.data bamBlockNr (4 * t + 2)) +
    popc8 (d.data bamBlockNr (4 * t + 3))

/-- The BAM counter invariant for track t. -/
def bamInv (d : FSDevice) (t : Nat) : Prop := bamCount d t = bamPop d t

/-- A sequence of setAllocationBit operations (markAsAllocated is the
value-false instance). -/
def applyBamOps (ops : List (Nat × Nat × Bool)) (d : FSDevice) : FSDevice :=
  ops.foldl (fun dev op => setAllocationBit op.1 op.2.1 op.2.2 dev) d

/-- FSDevice::blockPtr(nr): a valid pointer for block numbers below the
block count, a null pointer (none) for every larger number. -/
def blockPtr (d : FSDevice) (nr : Nat) : Option Nat :=
  if nr < d.numBlocks then some nr else none

/-- FSDevice::blockType(nr). -/
def blockType (d : FSDevice) (nr : Nat) : FSBlockType :=
  if nr < d.numBlocks then d.btype nr else FSBlockType.FS_UNKNOWN_BLOCK

/-- FSDevice::itemType(nr, pos). -/
def itemType (d : FSDevice) (nr pos : Nat) : FSItemType :=
  if nr < d.numBlocks then d.itype nr pos else FSItemType.FSI_UNUSED

/-- FSDevice::getCorrupted(nr). -/
def getCorrupted (d : FSDevice) (nr : Nat) : Nat :=
  if nr < d.numBlocks then d.corrupted nr else 0

/-- Modelled from the spec: FSBlock::importBlock copies 256 source bytes
into the data array of one block. -/
def importBlock (src : Nat → Nat) (nr : Nat) (d : FSDevice) : FSDevice :=
  { d with data := fun b o =>
      if b = nr ∧ o < 256 then src (nr * 256 + o) % 256 else d.data b o }

/-- FSDevice::importVolume: the buffer length must be the block count
times 256, otherwise the call fails with FS_WRONG_CAPACITY and the
device is left untouched; on success every block is imported in order
and the error output is FS_OK. -/
def importVolume (d : FSDevice) (src : Nat → Nat) (size : Nat) :
    Bool × FSError × FSDevice :=
  if d.numBlocks * 256 ≠ size then (false, FSError.FS_WRONG_CAPACITY, d)
  else
    (true, FSError.FS_OK,
      (List.range d.numBlocks).foldl (fun dev i => importBlock src i dev) d)

/-- FSDevice::exportBlocks: the destination size must be the number of
exported blocks times 256; the destination is zeroed and then every
block is copied out (the zeroing is invisible because the copy covers
every byte below size).  The third component is the destination buffer
after the call. -/
def exportBlocks (d : FSDevice) (first last : Nat) (dst : Nat → Nat) (size : Nat) :
    Bool × FSError × (Nat → Nat) :=
  if (last - first + 1) * 256 ≠ size then (false, FSError.FS_WRONG_CAPACITY, dst)
  else
    (true, FSError.FS_OK,
      fun i => if i < size then d.data (first + i / 256) (i % 256) else dst i)

/-- FSDevice::exportVolume: export all blocks. -/
def exportVolume (d : FSDevice) (dst : Nat → Nat) (size : Nat) :
    Bool × FSError × (Nat → Nat) :=
  exportBlocks d 0 (d.numBlocks - 1) dst size

/-- One byte of the bitmap part of a fresh BAM: bit i of bitmap byte j
of a track is set exactly when sector 8j + i exists on the track. -/
def bamBitsByte (t j : Nat) : Nat :=
  (List.range 8).foldl
    (fun a i => a + if 8 * j + i < sectorsPerTrack t then 2 ^ i else 0) 0

/-- One byte of a fresh BAM block: byte 4t is the free counter of track
t, bytes 4t + 1 to 4t + 3 are its bitmap. -/
def bamByteInit (o : Nat) : Nat :=
  if o % 4 = 0 then
    (if 1 ≤ o / 4 ∧ o / 4 ≤ 35 then sectorsPerTrack (o / 4) else 0)
  else bamBitsByte (o / 4) (o % 4 - 1)

/-- Modelled from the spec: a device made by makeWithFormat for a
single-sided single-density disk, with an empty BAM in which every
sector is marked free and every other byte of the volume is zero. -/
def formatD64 : FSDevice :=
  { numBlocks := 683
    data := fun b o => if b = bamBlockNr ∧ o < 256 then bamByteInit o else 0
    btype := fun _ => FSBlockType.FS_UNKNOWN_BLOCK
    itype := fun _ _ => FSItemType.FSI_UNUSED
    corrupted := fun _ => 0 }

/-- FSDevice::blockPtr(t, s): translate and bounds-check. -/
def blockPtrTS (d : FSDevice) (t s : Nat) : Option Nat :=
  match blockNrOf t s with
  | some b => blockPtr d b
  | none => none

/-- FSDevice::nextBlockPtr: follow the two link bytes of a block. -/
def nextBlockNr (d : FSDevice) (b : Nat) : Option Nat :=
  blockPtrTS d (d.data b 0) (d.data b 1)

/-- Modelled from the spec: FSDirEntry::isEmpty (FSDirEntry is not among
the sources).  A directory slot is free when its file type byte, at
offset 2 of the 32-byte slot, is zero. -/
def dirEntryEmpty (d : FSDevice) (b slot : Nat) : Bool :=
  d.data b (32 * slot + 2) = 0

/-- Modelled from the spec: FSDirEntry::isHidden.  The spec does not fix
the predicate; modelled as the closed flag, bit 7 of the file type byte,
being clear. -/
def dirEntryHidden (d : FSDevice) (b slot : Nat) : Bool :=
  !(d.data b (32 * slot + 2)).testBit 7

/-- The loop of FSDevice::scanDirectory: up to 144 entries, eight per
sector, stopping at the first empty entry, collecting the visible ones,
and following the sector link after every eighth entry. -/
def scanGo (d : FSDevice) (skipInv : Bool) : Nat → Nat → Option Nat → List (Nat × Nat)
  | 0, _, _ => []
  | _ + 1, _, none => []
  | cnt + 1, i, some b =>
      if dirEntryEmpty d b (i % 8) then []
      else
        (if skipInv && dirEntryHidden d b (i % 8) then [] else [(b, i % 8)]) ++
          scanGo d skipInv cnt (i + 1) (if i % 8 = 7 then nextBlockNr d b else some b)

/-- FSDevice::scanDirectory: the walk starts at block (18, 1). -/
def scanDirectory (d : FSDevice) (skipInv : Bool) : List (Nat × Nat) :=
  scanGo d skipInv 144 0 (blockPtrTS d 18 1)

/-- The sequence of directory slots the scan loop would visit, with no
emptiness test: the reference stream for the loop characterization. -/
def entrySeq (d : FSDevice) : Nat → Nat → Option Nat → List (Nat × Nat)
  | 0, _, _ => []
  | _ + 1, _, none => []
  | cnt + 1, i, some b =>
      (b, i % 8) :: entrySeq d cnt (i + 1) (if i % 8 = 7 then nextBlockNr d b else some b)

/-- The slot search at the start of FSDevice::makeFile: the first free
directory slot reachable from block (18, 1). -/
def findSlotGo (d : FSDevice) : Nat → Nat → Option Nat → Option (Nat × Nat)
  | 0, _, _ => none
  | _ + 1, _, none => none
  | cnt + 1, i, some b =>
      if dirEntryEmpty d b (i % 8) then some (b, i % 8)
      else findSlotGo d cnt (i + 1) (if i % 8 = 7 then nextBlockNr d b else some b)

/-- A store addressed by track and sector. -/
def updByteTS (d : FSDevice) (r : BlockRef) (o v : Nat) : FSDevice :=
  match blockNrOf r.t r.s with
  | some b => updByte d b o v
  | none => d

/-- A sequence of byte stores into one block. -/
def writeBytes (d : FSDevice) (b : Nat) (ws : List (Nat × Nat)) : FSDevice :=
  ws.foldl (fun dev p => updByte dev b p.1 p.2) d

/-- Modelled from the spec: the stores of FSDirEntry::init into a
32-byte directory slot: file type PRG (0x82, the closed flag plus type
PRG), first track and sector, the name filled up to 16 bytes with 0xA0,
and the block count low and high bytes. -/
def dirInitWrites (slot : Nat) (name : List Nat) (first : BlockRef) (nblocks : Nat) :
    List (Nat × Nat) :=
  [(32 * slot + 2, 0x82), (32 * slot + 3, first.t), (32 * slot + 4, first.s)] ++
    (List.range 16).map (fun k => (32 * slot + 5 + k, name.getD k 0xA0)) ++
    [(32 * slot + 30, nblocks % 256), (32 * slot + 31, nblocks / 256 % 256)]

/-- Modelled from the spec: FSDirEntry::init. -/
def dirInit (d : FSDevice) (b slot : Nat) (name : List Nat) (first : BlockRef)
    (nblocks : Nat) : FSDevice :=
  writeBytes d b (dirInitWrites slot name first nblocks)

/-- The payload loop of FSDevice::makeFile: bytes go to offsets 2 to 255
of the current block; when the offset counter reaches 0x100 the loop
moves to the next block of the allocated list and restarts at offset
2. -/
def writeGo : List Nat → BlockRef → List BlockRef → Nat → FSDevice → FSDevice
  | [], _, _, _, d => d
  | byte :: buf, cur, rest, j, d =>
      if j = 256 then
        match rest with
        | cur' :: rest' => writeGo buf cur' rest' 3 (updByteTS d cur' 2 byte)
        | [] => d
      else writeGo buf cur rest (j + 1) (updByteTS d cur j byte)

/-- The payload write of FSDevice::makeFile over a block list. -/
def writeData (d : FSDevice) (blks : List BlockRef) (buf : List Nat) : FSDevice :=
  match blks with
  | [] => d
  | c :: r => writeGo buf c r 2 d

/-- FSDevice::makeFile(name, dir, buf, cnt), after a slot has been
found: allocate the blocks, fail when nothing was allocated, then write
the payload and fill the directory slot. -/
def makeFileAt (d : FSDevice) (slotB slotI : Nat) (name : List Nat) (buf : List Nat) :
    Bool × FSDevice :=
  let nblocks := (buf.length + 253) / 254
  let res := allocate d ⟨1, 0⟩ nblocks
  if res.1.isEmpty then (false, d)
  else
    let d2 := writeData res.2 res.1 buf
    (true, dirInit d2 slotB slotI name (res.1.headD ⟨0, 0⟩) nblocks)

/-- FSDevice::makeFile(name, buf, cnt): search a free directory slot and
create the file there.  When no free slot exists among the 144 entries
the source falls through and returns true without creating anything. -/
def makeFile (d : FSDevice) (name : List Nat) (buf : List Nat) : Bool × FSDevice :=
  match findSlotGo d 144 0 (blockPtrTS d 18 1) with
  | some (b, i) => makeFileAt d b i name buf
  | none => (true, d)

/-- The 254 payload bytes of one block (offsets 2 to 255). -/
def readBlockPayload (d : FSDevice) (b : Nat) : List Nat :=
  (List.range 254).map (fun k => d.data b (2 + k))

/-- Reading a chain of linked blocks: collect the payload of each block
and stop when the link track byte is zero or the link is invalid. -/
def readChainGo (d : FSDevice) : Nat → Option Nat → List Nat
  | 0, _ => []
  | _ + 1, none => []
  | fuel + 1, some b =>
      readBlockPayload d b ++
        (if d.data b 0 = 0 then [] else readChainGo d fuel (nextBlockNr d b))

/-- Reading the chain that starts at the given track and sector. -/
def readChain (d : FSDevice) (r : BlockRef) : List Nat :=
  readChainGo d 200 (blockPtrTS d r.t r.s)

/-- The first n references of the canonical allocation walk that starts
at track 1, sector 0. -/
def walkList (n : Nat) : List BlockRef :=
  (List.range n).map (fun i => iterTS i ⟨1, 0⟩)

/-- The number of free blocks recorded in the BAM over the whole disk. -/
def countFree (d : FSDevice) : Nat :=
  (List.range 36).foldl
    (fun a t => a + (List.range (sectorsPerTrack t)).countP (fun s => isFree d ⟨t, s⟩)) 0

/-- A device on which exactly one block, (1, 0), is free: every BAM
bitmap bit is clear except bit 0 of byte 5, and the free counter of
track 1 is one. -/
def oneFreeDevice : FSDevice :=
  { numBlocks := 683
    data := fun b o =>
      if b = bamBlockNr ∧ o = 4 then 1
      else if b = bamBlockNr ∧ o = 5 then 1
      else 0
    btype := fun _ => FSBlockType.FS_UNKNOWN_BLOCK
    itype := fun _ _ => FSItemType.FSI_UNUSED
    corrupted := fun _ => 0 }

/-- A device whose directory sector (18, 1), block 358, holds a used
entry in slot 0, an empty entry in slot 1 and a used entry in slot 2. -/
def gapDirDevice : FSDevice :=
  { numBlocks := 683
    data := fun b o =>
      if b = 358 ∧ o = 2 then 0x82
      else if b = 358 ∧ o = 66 then 0x82
      else 0
    btype := fun _ => FSBlockType.FS_UNKNOWN_BLOCK
    itype := fun _ _ => FSItemType.FSI_UNUSED
    corrupted := fun _ => 0 }

/-- The states of the Am29F040B flash module, from FlashRom.h. -/
inductive FlashState where
  | FLASH_READ
  | FLASH_MAGIC_1
  | FLASH_MAGIC_2
  | FLASH_AUTOSELECT
  | FLASH_BYTE_PROGRAM
  | FLASH_BYTE_PROGRAM_ERROR
  | FLASH_ERASE_MAGIC_1
  | FLASH_ERASE_MAGIC_2
  | FLASH_ERASE_SELECT
  | FLASH_CHIP_ERASE
  | FLASH_SECTOR_ERASE
  | FLASH_SECTOR_ERASE_TIMEOUT
  | FLASH_SECTOR_ERASE_SUSPEND
  deriving DecidableEq, Repr

/-- The flash module: current state, the base state taken after a
completed command, and the memory array. -/
structure FlashRom where
  state : FlashState
  baseState : FlashState
  rom : Nat → Nat

/-- FlashRom::firstCommandAddr from FlashRom.h. -/
def firstCommandAddr (addr : Nat) : Bool := addr &&& 0x7FF = 0x555

/-- FlashRom::secondCommandAddr from FlashRom.h. -/
def secondCommandAddr (addr : Nat) : Bool := addr &&& 0x7FF = 0x2AA

/-- Modelled from the spec: FlashRom::poke (the implementation file is
not among the sources).  Command sequences as in section 4.7 of the
spec: the magic prologue, byte program (which can only clear bits),
the erase prologue with chip and sector erase, autoselect, and the rule
that any write not matching the expected pattern returns the machine to
its base state. -/
def flashPoke (f : FlashRom) (addr v : Nat) : FlashRom :=
  match f.state with
  | FlashState.FLASH_READ =>
      if firstCommandAddr addr ∧ v = 0xAA then { f with state := FlashState.FLASH_MAGIC_1 }
      else f
  | FlashState.FLASH_MAGIC_1 =>
      if secondCommandAddr addr ∧ v = 0x55 then { f with state := FlashState.FLASH_MAGIC_2 }
      else { f with state := f.baseState }
  | FlashState.FLASH_MAGIC_2 =>
      if firstCommandAddr addr ∧ v = 0xA0 then { f with state := FlashState.FLASH_BYTE_PROGRAM }
      else if firstCommandAddr addr ∧ v = 0x80 then { f with state := FlashState.FLASH_ERASE_MAGIC_1 }
      else if firstCommandAddr addr ∧ v = 0x90 then { f with state := FlashState.FLASH_AUTOSELECT }
      else if firstCommandAddr addr ∧ v = 0xF0 then { f with state := FlashState.FLASH_READ }
      else { f with state := f.baseState }
  | FlashState.FLASH_BYTE_PROGRAM =>
      { f with
        state := FlashState.FLASH_READ,
        rom := fun a => if a = addr then f.rom a &&& v else f.rom a }
  | FlashState.FLASH_ERASE_MAGIC_1 =>
      if firstCommandAddr addr ∧ v = 0xAA then { f with state := FlashState.FLASH_ERASE_MAGIC_2 }
      else { f with state := f.baseState }
  | FlashState.FLASH_ERASE_MAGIC_2 =>
      if secondCommandAddr addr ∧ v = 0x55 then { f with state := FlashState.FLASH_ERASE_SELECT }
      else { f with state := f.baseState }
  | FlashState.FLASH_ERASE_SELECT =>
      if firstCommandAddr addr ∧ v = 0x10 then
        { f with state := f.baseState, rom := fun _ => 0xFF }
      else if v = 0x30 then
        { f with state := f.baseState,
                 rom := fun a => if a / 0x10000 = addr / 0x10000 then 0xFF else f.rom a }
      else { f with state := f.baseState }
  | _ => { f with state := f.baseState }

/-- The flash module after reset: reading state, reading base state. -/
def flashReset : FlashRom :=
  { state := FlashState.FLASH_READ, baseState := FlashState.FLASH_READ, rom := fun _ => 0xFF }

/-- A sequence of pokes. -/
def applyPokes (f : FlashRom) (ws : List (Nat × Nat)) : FlashRom :=
  ws.foldl (fun g w => flashPoke g w.1 w.2) f

/-- The value of LONG_MAX on the 64-bit platform the source targets. -/
def longMax : Int := 2 ^ 63 - 1

/-- C64::suspendAutoSnapshots from C64.h: the interval is lowered by
half of LONG_MAX. -/
def suspendAutoSnapshots (interval : Int) : Int := interval - longMax / 2

/-- C64::resumeAutoSnapshots from C64.h: the interval is raised by half
of LONG_MAX. -/
def resumeAutoSnapshots (interval : Int) : Int := interval + longMax / 2

/-- Modelled from the spec: the run loop schedules an auto snapshot when
frame times frameNanos has reached lastAuto plus the interval (the
scheduling code is not among the sources). -/
def autoSnapshotDue (frame frameNanos lastAuto interval : Int) : Bool :=
  lastAuto + interval ≤ frame * frameNanos

/-- The run states of a hardware component, from the sources. -/
inductive EmulatorState where
  | EMULATOR_STATE_OFF
  | EMULATOR_STATE_PAUSED
  | EMULATOR_STATE_RUNNING
  deriving DecidableEq, Repr

/-- The delegation hooks a state transition invokes on the component. -/
inductive HWAction where
  | actPowerOn
  | actPowerOff
  | actRun
  | actPause
  deriving DecidableEq, Repr

/-- Modelled from the spec: HardwareComponent::pause per the transition
table in the header: only a running component changes state and invokes
the pause hook. -/
def hwPause : EmulatorState → EmulatorState × List HWAction
  | EmulatorState.EMULATOR_STATE_RUNNING =>
      (EmulatorState.EMULATOR_STATE_PAUSED, [HWAction.actPause])
  | s => (s, [])

/-- Modelled from the spec: HardwareComponent::powerOn per the
transition table in the header. -/
def hwPowerOn : EmulatorState → EmulatorState × List HWAction
  | EmulatorState.EMULATOR_STATE_OFF =>
      (EmulatorState.EMULATOR_STATE_PAUSED, [HWAction.actPowerOn])
  | s => (s, [])

/-- Modelled from the spec: HardwareComponent::powerOff per the
transition table in the header: a running component is paused first and
then powered off. -/
def hwPowerOff : EmulatorState → EmulatorState × List HWAction
  | EmulatorState.EMULATOR_STATE_OFF => (EmulatorState.EMULATOR_STATE_OFF, [])
  | EmulatorState.EMULATOR_STATE_PAUSED =>
      (EmulatorState.EMULATOR_STATE_OFF, [HWAction.actPowerOff])
  | EmulatorState.EMULATOR_STATE_RUNNING =>
      (EmulatorState.EMULATOR_STATE_OFF,
        (hwPause EmulatorState.EMULATOR_STATE_RUNNING).2 ++ [HWAction.actPowerOff])

/-- Modelled from the spec: HardwareComponent::run per the transition
table in the header. -/
def hwRun : EmulatorState → EmulatorState × List HWAction
  | EmulatorState.EMULATOR_STATE_OFF =>
      (EmulatorState.EMULATOR_STATE_RUNNING,
        (hwPowerOn EmulatorState.EMULATOR_STATE_OFF).2 ++ [HWAction.actRun])
  | EmulatorState.EMULATOR_STATE_PAUSED =>
      (EmulatorState.EMULATOR_STATE_RUNNING, [HWAction.actRun])
  | EmulatorState.EMULATOR_STATE_RUNNING =>
      (EmulatorState.EMULATOR_STATE_RUNNING, [])

/-- The stop flag of the C64 run loop. -/
structure C64Flags where
  stopFlag : Bool
  deriving DecidableEq, Repr

/-- C64::requestStop from C64.h: set the stop flag. -/
def requestStop (c : C64Flags) : C64Flags := { c with stopFlag := true }

/-- The block that holds stream position m of a payload written over a
block list, 254 payload bytes per block. -/
def chunkBlock (blks : List BlockRef) (m : Nat) : BlockRef :=
  blks.getD (m / 254) ⟨0, 0⟩

/-- The byte offset inside its block of stream position m. -/
def chunkOff (m : Nat) : Nat := 2 + m % 254

theorem updByte_same (d : FSDevice) (b o v : Nat) :
    (updByte d b o v).data b o = v % 256 := by
  simp [updByte]

theorem updByte_other (d : FSDevice) (b o v b' o' : Nat)
    (h : ¬(b' = b ∧ o' = o)) :
    (updByte d b o v).data b' o' = d.data b' o' := by
  simp [updByte, h]

theorem popc8_le_eight (x : Nat) : popc8 x ≤ 8 := by
  unfold popc8
  have h : ∀ c : Bool, (if c then 1 else 0) ≤ 1 := by intro c; cases c <;> simp
  calc (if x.testBit 0 then 1 else 0) + (if x.testBit 1 then 1 else 0) +
      (if x.testBit 2 then 1 else 0) + (if x.testBit 3 then 1 else 0) +
      (if x.testBit 4 then 1 else 0) + (if x.testBit 5 then 1 else 0) +
      (if x.testBit 6 then 1 else 0) + (if x.testBit 7 then 1 else 0)
      ≤ 1 + 1 + 1 + 1 + 1 + 1 + 1 + 1 := by
        gcongr <;> exact h _
    _ ≤ 8 := by norm_num

theorem testBit_shl_one (b i : Nat) : ((1 : Nat) <<< b).testBit i = decide (b = i) := by
  by_cases h : b = i
  · subst h
    simp [Nat.shiftLeft_eq, Nat.testBit_two_pow_self]
  · have h2 : ((2 : Nat) ^ b).testBit i = false := Nat.testBit_two_pow_of_ne h
    simp [Nat.shiftLeft_eq, h2, h]

theorem testBit_setBit8_self (x b : Nat) : (setBit8 x b).testBit b = true := by
  simp only [setBit8, Nat.testBit_or, testBit_shl_one]
  simp

theorem testBit_setBit8_other (x b i : Nat) (h : i ≠ b) :
    (setBit8 x b).testBit i = x.testBit i := by
  simp only [setBit8, Nat.testBit_or, testBit_shl_one]
  simp [Ne.symm h]

theorem testBit_255 (i : Nat) (hi : i < 8) : (255 : Nat).testBit i = true := by
  interval_cases i <;> decide

theorem testBit_clrBit8_self (x b : Nat) (h : b < 8) :
    (clrBit8 x b).testBit b = false := by
  simp only [clrBit8, Nat.testBit_and, Nat.testBit_xor, testBit_shl_one,
    testBit_255 b h]
  simp

theorem testBit_clrBit8_other (x b i : Nat) (_hb : b < 8) (hi : i < 8) (h : i ≠ b) :
    (clrBit8 x b).testBit i = x.testBit i := by
  simp only [clrBit8, Nat.testBit_and, Nat.testBit_xor, testBit_shl_one,
    testBit_255 i hi]
  simp [Ne.symm h]

theorem testBit_mod256 (x i : Nat) (hi : i < 8) :
    (x % 256).testBit i = x.testBit i := by
  have h : (256 : Nat) = 2 ^ 8 := by norm_num
  rw [h, Nat.testBit_mod_two_pow]
  simp [hi]

theorem popc8_mod256 (x : Nat) : popc8 (x % 256) = popc8 x := by
  unfold popc8
  rw [testBit_mod256 x 0 (by norm_num), testBit_mod256 x 1 (by norm_num),
      testBit_mod256 x 2 (by norm_num), testBit_mod256 x 3 (by norm_num),
      testBit_mod256 x 4 (by norm_num), testBit_mod256 x 5 (by norm_num),
      testBit_mod256 x 6 (by norm_num), testBit_mod256 x 7 (by norm_num)]

theorem popc8_setBit8 (x b : Nat) (hb : b < 8) (hx : x.testBit b = false) :
    popc8 (setBit8 x b) = popc8 x + 1 := by
  have hself := testBit_setBit8_self x b
  have hoth := testBit_setBit8_other x b
  unfold popc8
  interval_cases b <;> simp [hself, hoth, hx] <;> omega

theorem popc8_clrBit8 (x b : Nat) (hb : b < 8) (hx : x.testBit b = true) :
    popc8 (clrBit8 x b) = popc8 x - 1 ∧ 1 ≤ popc8 x := by
  have hself := testBit_clrBit8_self x b hb
  have hoth := testBit_clrBit8_other x b
  unfold popc8
  interval_cases b <;> simp [hself, hoth, hx] <;> omega

theorem data_upd (d : FSDevice) (b o v b' o' : Nat) :
    (updByte d b o v).data b' o' = if b' = b ∧ o' = o then v % 256 else d.data b' o' := by
  simp [updByte]

theorem bamPop_le (d : FSDevice) (t : Nat) : bamPop d t ≤ 24 := by
  unfold bamPop
  have h1 := popc8_le_eight (d.data bamBlockNr (4 * t + 1))
  have h2 := popc8_le_eight (d.data bamBlockNr (4 * t + 2))
  have h3 := popc8_le_eight (d.data bamBlockNr (4 * t + 3))
  omega

theorem bamCount_upd_same (d : FSDevice) (t v : Nat) :
    bamCount (updByte d bamBlockNr (4 * t) v) t = v % 256 := by
  unfold bamCount
  simp [data_upd]

theorem bamCount_upd_ne (d : FSDevice) (t off v : Nat) (h : off ≠ 4 * t) :
    bamCount (updByte d bamBlockNr off v) t = bamCount d t := by
  unfold bamCount
  simp [data_upd, Ne.symm h]

theorem bamPop_upd_ne (d : FSDevice) (t off v : Nat)
    (h1 : off ≠ 4 * t + 1) (h2 : off ≠ 4 * t + 2) (h3 : off ≠ 4 * t + 3) :
    bamPop (updByte d bamBlockNr off v) t = bamPop d t := by
  unfold bamPop
  simp [data_upd, Ne.symm h1, Ne.symm h2, Ne.symm h3]

theorem bamPop_upd1 (d : FSDevice) (t v : Nat) :
    bamPop (updByte d bamBlockNr (4 * t + 1) v) t =
      popc8 v + popc8 (d.data bamBlockNr (4 * t + 2)) +
        popc8 (d.data bamBlockNr (4 * t + 3)) := by
  unfold bamPop
  have h2 : (4 * t + 2 : Nat) ≠ 4 * t + 1 := by omega
  have h3 : (4 * t + 3 : Nat) ≠ 4 * t + 1 := by omega
  simp [data_upd, h2, h3, popc8_mod256]

theorem bamPop_upd2 (d : FSDevice) (t v : Nat) :
    bamPop (updByte d bamBlockNr (4 * t + 2) v) t =
      popc8 (d.data bamBlockNr (4 * t + 1)) + popc8 v +
        popc8 (d.data bamBlockNr (4 * t + 3)) := by
  unfold bamPop
  have h1 : (4 * t + 1 : Nat) ≠ 4 * t + 2 := by omega
  have h3 : (4 * t + 3 : Nat) ≠ 4 * t + 2 := by omega
  simp [data_upd, h1, h3, popc8_mod256]

theorem bamPop_upd3 (d : FSDevice) (t v : Nat) :
    bamPop (updByte d bamBlockNr (4 * t + 3) v) t =
      popc8 (d.data bamBlockNr (4 * t + 1)) +
        popc8 (d.data bamBlockNr (4 * t + 2)) + popc8 v := by
  unfold bamPop
  have h1 : (4 * t + 1 : Nat) ≠ 4 * t + 3 := by omega
  have h2 : (4 * t + 2 : Nat) ≠ 4 * t + 3 := by omega
  simp [data_upd, h1, h2, popc8_mod256]

theorem bamInv_setAllocationBit (t t' s' : Nat) (v : Bool) (d : FSDevice)
    (h : bamInv d t) : bamInv (setAllocationBit t' s' v d) t := by
  by_cases hval : isTrackSectorPair t' s' = true
  case neg =>
    unfold setAllocationBit
    simp only [hval]
    simpa using h
  have hrange : (1 ≤ t' ∧ t' ≤ 35) ∧ s' < sectorsPerTrack t' := by
    simpa [isTrackSectorPair] using hval
  have hspt : sectorsPerTrack t' ≤ 21 := by
    unfold sectorsPerTrack; split_ifs <;> omega
  have hs21 : s' < 21 := by omega
  have hdiv : s' / 8 ≤ 2 := by omega
  have hbit : s' % 8 < 8 := by omega
  have hcb : (4 * t' + 1 + s' / 8) / 4 * 4 = 4 * t' := by omega
  unfold setAllocationBit
  simp only [hval, if_true, hcb]
  split_ifs with h1 h2
  · -- the bit goes from clear to set; the counter is incremented
    have hset := popc8_setBit8 (d.data bamBlockNr (4 * t' + 1 + s' / 8)) (s' % 8)
      hbit h1.2
    have hBne : (4 * t' : Nat) ≠ 4 * t' + 1 + s' / 8 := by omega
    have hread : (updByte d bamBlockNr (4 * t' + 1 + s' / 8)
        (setBit8 (d.data bamBlockNr (4 * t' + 1 + s' / 8)) (s' % 8))).data
          bamBlockNr (4 * t') = d.data bamBlockNr (4 * t') := by
      rw [data_upd, if_neg]
      simp [hBne]
    by_cases htt : t' = t
    · subst htt
      unfold bamInv at h ⊢
      rw [bamCount_upd_same, bamPop_upd_ne _ _ _ _ (by omega) (by omega) (by omega),
        hread]
      have hd8 : s' / 8 = 0 ∨ s' / 8 = 1 ∨ s' / 8 = 2 := by omega
      have hle := bamPop_le d t'
      unfold bamCount at h
      rcases hd8 with hd8 | hd8 | hd8 <;>
        rw [hd8] at hset ⊢
      · rw [show (4 * t' + 1 + 0 : Nat) = 4 * t' + 1 by omega] at hset ⊢
        rw [bamPop_upd1]
        unfold bamPop at h hle
        omega
      · rw [show (4 * t' + 1 + 1 : Nat) = 4 * t' + 2 by omega] at hset ⊢
        rw [bamPop_upd2]
        unfold bamPop at h hle
        omega
      · rw [show (4 * t' + 1 + 2 : Nat) = 4 * t' + 3 by omega] at hset ⊢
        rw [bamPop_upd3]
        unfold bamPop at h hle
        omega
    · unfold bamInv at h ⊢
      rw [bamCount_upd_ne _ _ _ _ (by omega),
        bamPop_upd_ne _ _ _ _ (by omega) (by omega) (by omega),
        bamCount_upd_ne _ _ _ _ (by omega),
        bamPop_upd_ne _ _ _ _ (by omega) (by omega) (by omega)]
      exact h
  · -- the bit goes from set to clear; the counter is decremented
    have hclr := popc8_clrBit8 (d.data bamBlockNr (4 * t' + 1 + s' / 8)) (s' % 8)
      hbit h2.2
    have hBne : (4 * t' : Nat) ≠ 4 * t' + 1 + s' / 8 := by omega
    have hread : (updByte d bamBlockNr (4 * t' + 1 + s' / 8)
        (clrBit8 (d.data bamBlockNr (4 * t' + 1 + s' / 8)) (s' % 8))).data
          bamBlockNr (4 * t') = d.data bamBlockNr (4 * t') := by
      rw [data_upd, if_neg]
      simp [hBne]
    by_cases htt : t' = t
    · subst htt
      unfold bamInv at h ⊢
      rw [bamCount_upd_same, bamPop_upd_ne _ _ _ _ (by omega) (by omega) (by omega),
        hread]
      have hd8 : s' / 8 = 0 ∨ s' / 8 = 1 ∨ s' / 8 = 2 := by omega
      have hle := bamPop_le d t'
      unfold bamCount at h
      rcases hd8 with hd8 | hd8 | hd8 <;>
        rw [hd8] at hclr ⊢
      · rw [show (4 * t' + 1 + 0 : Nat) = 4 * t' + 1 by omega] at hclr ⊢
        rw [bamPop_upd1]
        unfold bamPop at h hle
        omega
      · rw [show (4 * t' + 1 + 1 : Nat) = 4 * t' + 2 by omega] at hclr ⊢
        rw [bamPop_upd2]
        unfold bamPop at h hle
        omega
      · rw [show (4 * t' + 1 + 2 : Nat) = 4 * t' + 3 by omega] at hclr ⊢
        rw [bamPop_upd3]
        unfold bamPop at h hle
        omega
    · unfold bamInv at h ⊢
      rw [bamCount_upd_ne _ _ _ _ (by omega),
        bamPop_upd_ne _ _ _ _ (by omega) (by omega) (by omega),
        bamCount_upd_ne _ _ _ _ (by omega),
        bamPop_upd_ne _ _ _ _ (by omega) (by omega) (by omega)]
      exact h
  · exact h

theorem bamInv_applyBamOps (ops : List (Nat × Nat × Bool)) (d : FSDevice) (t : Nat)
    (h : bamInv d t) : bamInv (applyBamOps ops d) t := by
  induction ops generalizing d with
  | nil => exact h
  | cons op rest ih =>
      exact ih _ (bamInv_setAllocationBit t op.1 op.2.1 op.2.2 d h)

theorem importBlock_numBlocks (src : Nat → Nat) (nr : Nat) (d : FSDevice) :
    (importBlock src nr d).numBlocks = d.numBlocks := rfl

theorem importFold_numBlocks (src : Nat → Nat) (l : List Nat) (d : FSDevice) :
    (l.foldl (fun dev i => importBlock src i dev) d).numBlocks = d.numBlocks := by
  induction l generalizing d with
  | nil => rfl
  | cons x xs ih => exact ih _

theorem importFold_data (src : Nat → Nat) (n : Nat) (d : FSDevice) (b o : Nat)
    (hb : b < n) (ho : o < 256) :
    ((List.range n).foldl (fun dev i => importBlock src i dev) d).data b o =
      src (b * 256 + o) % 256 := by
  induction n generalizing d with
  | zero => omega
  | succ m ih =>
      rw [List.range_succ, List.foldl_append]
      by_cases hbm : b = m
      · subst hbm
        simp [importBlock, ho]
      · have hb' : b < m := by omega
        have : (importBlock src m
            ((List.range m).foldl (fun dev i => importBlock src i dev) d)).data b o =
            ((List.range m).foldl (fun dev i => importBlock src i dev) d).data b o := by
          simp [importBlock, hbm]
        simpa [this] using ih d hb'

/-- C4: for every track t, after any sequence of setAllocationBit or
markAsAllocated operations starting from a state in which the BAM free
counter of t equals the popcount of the three bitmap bytes of t, the
counter still equals that popcount. -/
theorem C4_bam_count_invariant (ops : List (Nat × Nat × Bool)) (d : FSDevice) (t : Nat)
    (h : bamInv d t) : bamInv (applyBamOps ops d) t :=
  bamInv_applyBamOps ops d t h

theorem C4_witness : bamInv (applyBamOps [(1, 0, false)] formatD64) 1 :=
  C4_bam_count_invariant [(1, 0, false)] formatD64 1
    (by unfold bamInv bamCount bamPop; decide)

/-- C5: importVolume on a buffer whose length is not the block count
times 256 returns false, reports FS_WRONG_CAPACITY and leaves the
device untouched; on a matching length it returns true and reports
FS_OK. -/
theorem C5_importVolume_capacity (d : FSDevice) (src : Nat → Nat) (size : Nat) :
    (d.numBlocks * 256 ≠ size →
      importVolume d src size = (false, FSError.FS_WRONG_CAPACITY, d)) ∧
    (d.numBlocks * 256 = size →
      (importVolume d src size).1 = true ∧
        (importVolume d src size).2.1 = FSError.FS_OK) := by
  constructor <;> intro h
  · simp [importVolume, h]
  · simp [importVolume, h]

theorem C5_witness :
    importVolume formatD64 (fun _ => 0) 5 =
      (false, FSError.FS_WRONG_CAPACITY, formatD64) ∧
    (importVolume formatD64 (fun _ => 0) (683 * 256)).1 = true :=
  ⟨(C5_importVolume_capacity formatD64 (fun _ => 0) 5).1 (by decide),
   ((C5_importVolume_capacity formatD64 (fun _ => 0) (683 * 256)).2 (by decide)).1⟩

/-- C10: every block-number query is total: beyond the block count,
blockPtr is null, blockType is FS_UNKNOWN_BLOCK, itemType is FSI_UNUSED
and getCorrupted is zero (all four are read-only functions of the
device). -/
theorem C10_out_of_range_queries (d : FSDevice) (nr pos : Nat) (h : d.numBlocks ≤ nr) :
    blockPtr d nr = none ∧
    blockType d nr = FSBlockType.FS_UNKNOWN_BLOCK ∧
    itemType d nr pos = FSItemType.FSI_UNUSED ∧
    getCorrupted d nr = 0 := by
  have hlt : ¬ nr < d.numBlocks := by omega
  exact ⟨by simp [blockPtr, hlt], by simp [blockType, hlt],
    by simp [itemType, hlt], by simp [getCorrupted, hlt]⟩

theorem C10_witness :
    blockPtr formatD64 683 = none ∧
    blockType formatD64 683 = FSBlockType.FS_UNKNOWN_BLOCK ∧
    itemType formatD64 683 0 = FSItemType.FSI_UNUSED ∧
    getCorrupted formatD64 683 = 0 :=
  C10_out_of_range_queries formatD64 683 0 (by decide)

/-- C1: importing a buffer of the exact volume size and exporting into a
buffer of the same size returns exactly the imported bytes. -/
theorem C1_import_export_roundtrip (d : FSDevice) (src dst0 : Nat → Nat) (size : Nat)
    (hnb : d.numBlocks = 683) (hsize : size = 683 * 256)
    (hsrc : ∀ i, i < size → src i < 256) :
    (importVolume d src size).1 = true ∧
    (importVolume d src size).2.1 = FSError.FS_OK ∧
    (exportVolume (importVolume d src size).2.2 dst0 size).1 = true ∧
    ∀ i, i < size →
      (exportVolume (importVolume d src size).2.2 dst0 size).2.2 i = src i := by
  have hcond : ¬ (d.numBlocks * 256 ≠ size) := by
    rw [hnb, hsize]
    omega
  have himp : importVolume d src size =
      (true, FSError.FS_OK,
        (List.range d.numBlocks).foldl (fun dev i => importBlock src i dev) d) := by
    unfold importVolume
    rw [if_neg hcond]
  rw [himp]
  have hnum : ((List.range d.numBlocks).foldl
      (fun dev i => importBlock src i dev) d).numBlocks = 683 := by
    rw [importFold_numBlocks, hnb]
  have hexp : ¬ ((((List.range d.numBlocks).foldl
      (fun dev i => importBlock src i dev) d).numBlocks - 1 - 0 + 1) * 256 ≠ size) := by
    rw [hnum, hsize]
    omega
  refine ⟨rfl, rfl, ?_, ?_⟩
  · unfold exportVolume exportBlocks
    rw [if_neg hexp]
  · intro i hi
    unfold exportVolume exportBlocks
    rw [if_neg hexp]
    simp only [hi, if_true, Nat.zero_add]
    have hb : i / 256 < d.numBlocks := by
      rw [hnb]
      omega
    have ho : i % 256 < 256 := by omega
    rw [importFold_data src d.numBlocks d (i / 256) (i % 256) hb ho]
    have hix : i / 256 * 256 + i % 256 = i := by omega
    rw [hix, Nat.mod_eq_of_lt (hsrc i hi)]

theorem C1_witness :
    (importVolume formatD64 (fun _ => 7) (683 * 256)).1 = true ∧
    (exportVolume (importVolume formatD64 (fun _ => 7) (683 * 256)).2.2
      (fun _ => 0) (683 * 256)).2.2 512 = 7 := by
  have h := C1_import_export_roundtrip formatD64 (fun _ => 7) (fun _ => 0)
    (683 * 256) rfl rfl (fun i _ => by norm_num)
  exact ⟨h.1, h.2.2.2 512 (by norm_num)⟩

/-- C8, counterexample: with the default interval of three seconds and
the scheduling rule of the spec, the auto-snapshot condition is true,
not false, right after suspendAutoSnapshots: a snapshot fires while
suspended, so the claim as stated fails. -/
theorem C8_counterexample :
    autoSnapshotDue 1 20000000 0 (suspendAutoSnapshots 3) = true := by decide

/-- C8, amended: resumeAutoSnapshots exactly undoes suspendAutoSnapshots
on the interval; the no-snapshot-while-suspended half of the claim does
not hold against the scheduling rule stated in the spec, because
suspending lowers the interval instead of raising it. -/
theorem C8_resume_undoes_suspend (interval : Int) :
    resumeAutoSnapshots (suspendAutoSnapshots interval) = interval := by
  unfold resumeAutoSnapshots suspendAutoSnapshots
  omega

/-- C9: pause on a component that is not running is a no-op, powerOff on
an off component is a no-op, powerOff on a running component first
invokes the pause transition (so the component passes through the
paused state) and then powers off, and requestStop is sticky and
idempotent. -/
theorem C9_component_state_machine :
    (∀ s : EmulatorState, s ≠ EmulatorState.EMULATOR_STATE_RUNNING → hwPause s = (s, [])) ∧
    hwPowerOff EmulatorState.EMULATOR_STATE_OFF = (EmulatorState.EMULATOR_STATE_OFF, []) ∧
    hwPowerOff EmulatorState.EMULATOR_STATE_RUNNING =
      (EmulatorState.EMULATOR_STATE_OFF, [HWAction.actPause, HWAction.actPowerOff]) ∧
    hwPause EmulatorState.EMULATOR_STATE_RUNNING =
      (EmulatorState.EMULATOR_STATE_PAUSED, [HWAction.actPause]) ∧
    (∀ c : C64Flags, (requestStop c).stopFlag = true) ∧
    (∀ c : C64Flags, requestStop (requestStop c) = requestStop c) := by
  refine ⟨?_, rfl, rfl, rfl, fun c => rfl, fun c => rfl⟩
  intro s hs
  cases s
  · rfl
  · rfl
  · exact absurd rfl hs

theorem C9_witness :
    hwPause EmulatorState.EMULATOR_STATE_OFF = (EmulatorState.EMULATOR_STATE_OFF, []) ∧
    (requestStop ⟨false⟩).stopFlag = true :=
  ⟨C9_component_state_machine.1 EmulatorState.EMULATOR_STATE_OFF (by decide),
   C9_component_state_machine.2.2.2.2.1 ⟨false⟩⟩

theorem and_mask2047_eq_mod (x : Nat) : x &&& 0x7FF = x % 2048 := by
  have h1 : (0x7FF : Nat) = 2 ^ 11 - 1 := by norm_num
  have h2 : (2048 : Nat) = 2 ^ 11 := by norm_num
  apply Nat.eq_of_testBit_eq
  intro i
  rw [Nat.testBit_and, h1, Nat.testBit_two_pow_sub_one, h2, Nat.testBit_mod_two_pow,
    Bool.and_comm]

theorem flashPoke_baseState (f : FlashRom) (a v : Nat) :
    (flashPoke f a v).baseState = f.baseState := by
  rcases f with ⟨st, bs, rom⟩
  cases st <;> simp only [flashPoke] <;> split_ifs <;> rfl

theorem applyPokes_baseState (ws : List (Nat × Nat)) (f : FlashRom) :
    (applyPokes f ws).baseState = f.baseState := by
  induction ws generalizing f with
  | nil => rfl
  | cons w rest ih =>
      have hstep : applyPokes f (w :: rest) = applyPokes (flashPoke f w.1 w.2) rest := rfl
      rw [hstep, ih, flashPoke_baseState]

theorem flashPoke_F0 (f : FlashRom) (a : Nat)
    (hb : f.baseState = FlashState.FLASH_READ) (ha : firstCommandAddr a = true) :
    (flashPoke f a 0xF0).state = FlashState.FLASH_READ := by
  rcases f with ⟨st, bs, rom⟩
  dsimp at hb
  subst hb
  cases st <;> simp [flashPoke, ha]

/-- C7: after any poke sequence from reset, a write of 0xF0 to a
correctly addressed command address leaves the flash state machine in
the reading state; and the two command-address predicates hold exactly
on the addresses congruent to 0x555 and 0x2AA modulo 2048. -/
theorem C7_flash_f0_returns_to_read (ws : List (Nat × Nat)) (a : Nat)
    (ha : firstCommandAddr a = true) :
    (flashPoke (applyPokes flashReset ws) a 0xF0).state = FlashState.FLASH_READ ∧
    (∀ x : Nat, firstCommandAddr x = true ↔ x % 2048 = 0x555) ∧
    (∀ x : Nat, secondCommandAddr x = true ↔ x % 2048 = 0x2AA) := by
  refine ⟨?_, ?_, ?_⟩
  · exact flashPoke_F0 _ a (applyPokes_baseState ws flashReset) ha
  · intro x
    unfold firstCommandAddr
    rw [and_mask2047_eq_mod]
    simp
  · intro x
    unfold secondCommandAddr
    rw [and_mask2047_eq_mod]
    simp

theorem C7_witness :
    (flashPoke (applyPokes flashReset [(0x555, 0xAA), (0x2AA, 0x55)]) 0x555 0xF0).state =
      FlashState.FLASH_READ :=
  (C7_flash_f0_returns_to_read [(0x555, 0xAA), (0x2AA, 0x55)] 0x555 (by decide)).1

theorem iterTS_succ (n : Nat) (r : BlockRef) :
    iterTS (n + 1) r = iterTS n (nextTS dataInterleave r) := rfl

theorem iterTS_add (a b : Nat) (r : BlockRef) :
    iterTS a (iterTS b r) = iterTS (b + a) r := by
  induction b generalizing r with
  | zero => simp [iterTS]
  | succ m ih =>
      rw [iterTS_succ, ih]
      have h2 : m + 1 + a = m + a + 1 := by omega
      rw [h2, iterTS_succ]

theorem nextTrack_ne18 (t : Nat) : nextTrack t ≠ 18 := by
  unfold nextTrack
  split_ifs <;> omega

theorem nextTS_ne18 (il : Nat) (r : BlockRef) (h : r.t ≠ 18) :
    (nextTS il r).t ≠ 18 := by
  unfold nextTS
  dsimp only
  split_ifs
  · exact nextTrack_ne18 r.t
  · exact h

theorem iterTS_ne18 (k : Nat) (r : BlockRef) (h : r.t ≠ 18) :
    (iterTS k r).t ≠ 18 := by
  induction k generalizing r with
  | zero => exact h
  | succ m ih => exact ih (nextTS dataInterleave r) (nextTS_ne18 _ r h)

theorem nextFreeBlockGo_isIter (d : FSDevice) (fuel : Nat) (r : BlockRef) :
    ∃ j, nextFreeBlockGo d fuel r = iterTS j r := by
  induction fuel generalizing r with
  | zero => exact ⟨0, rfl⟩
  | succ m ih =>
      unfold nextFreeBlockGo
      split_ifs with h
      · obtain ⟨j, hj⟩ := ih (nextTS dataInterleave r)
        exact ⟨j + 1, by rw [hj]; exact (iterTS_succ j r).symm⟩
      · exact ⟨0, rfl⟩

theorem nextFreeBlockGo_ok (d : FSDevice) (fuel : Nat) (r : BlockRef)
    (h : (iterTS fuel r).t = 0) :
    (nextFreeBlockGo d fuel r).t = 0 ∨ isFree d (nextFreeBlockGo d fuel r) = true := by
  induction fuel generalizing r with
  | zero => exact Or.inl h
  | succ m ih =>
      unfold nextFreeBlockGo
      split_ifs with hc
      · exact ih (nextTS dataInterleave r) h
      · rcases Decidable.em (r.t = 0) with h0 | h0
        · exact Or.inl h0
        · right
          rcases Bool.eq_false_or_eq_true (isFree d r) with hf | hf
          · exact hf
          · exact absurd ⟨h0, hf⟩ hc

theorem nextTS_t0 (il : Nat) (r : BlockRef) (h : r.t = 0) :
    (nextTS il r).t = 0 := by
  unfold nextTS
  dsimp only
  split_ifs
  · rw [h]
    rfl
  · exact h

theorem iterTS_t0 (k : Nat) (r : BlockRef) (h : r.t = 0) : (iterTS k r).t = 0 := by
  induction k generalizing r with
  | zero => exact h
  | succ m ih => exact ih (nextTS dataInterleave r) (nextTS_t0 _ r h)

set_option maxRecDepth 40000 in
theorem iterTS_start_exhausts : (iterTS 4096 ⟨1, 0⟩).t = 0 := by
  have h300 : (iterTS 300 ⟨1, 0⟩).t = 0 := by decide
  have hadd : iterTS 3796 (iterTS 300 ⟨1, 0⟩) = iterTS 4096 ⟨1, 0⟩ := by
    rw [iterTS_add]
  rw [← hadd]
  exact iterTS_t0 3796 _ h300

theorem nextFreeBlock_start_spec (d : FSDevice) :
    ((nextFreeBlock d ⟨1, 0⟩).t = 0 ∨ isFree d (nextFreeBlock d ⟨1, 0⟩) = true) ∧
    (∃ j, nextFreeBlock d ⟨1, 0⟩ = iterTS j ⟨1, 0⟩) := by
  have hval : isValidRef (⟨1, 0⟩ : BlockRef) = true := by decide
  unfold nextFreeBlock
  rw [if_pos hval]
  exact ⟨nextFreeBlockGo_ok d 4096 ⟨1, 0⟩ iterTS_start_exhausts,
    nextFreeBlockGo_isIter d 4096 ⟨1, 0⟩⟩

theorem nextFreeBlock_start_ne18 (d : FSDevice) :
    (nextFreeBlock d ⟨1, 0⟩).t ≠ 18 := by
  obtain ⟨j, hj⟩ := (nextFreeBlock_start_spec d).2
  rw [hj]
  exact iterTS_ne18 j ⟨1, 0⟩ (by decide)

theorem allocGo_refs (n : Nat) (d : FSDevice) (r : BlockRef) :
    (allocGo n d r).1 = (List.range n).map (fun i => iterTS i r) := by
  induction n generalizing d r with
  | zero => rfl
  | succ m ih =>
      have hstep : (allocGo (m + 1) d r).1 =
          r :: (allocGo m (setLink (markAsAllocated r.t r.s d) r (nextTS dataInterleave r))
            (nextTS dataInterleave r)).1 := rfl
      rw [hstep, ih, List.range_succ_eq_map]
      simp only [List.map_cons, List.map_map, Function.comp, iterTS_succ]
      rfl

theorem allocate_fst (d : FSDevice) (start : BlockRef) (n : Nat) :
    (allocate d start n).1 =
      if (nextFreeBlock d start).t = 0 then []
      else (List.range n).map (fun i => iterTS i (nextFreeBlock d start)) := by
  unfold allocate
  dsimp only
  split_ifs with h0
  · rfl
  · rcases hl : (allocGo n d (nextFreeBlock d start)).1.getLast? with _ | last <;>
      simp only [hl] <;> exact allocGo_refs n d (nextFreeBlock d start)

theorem allocate_empty_iff (d : FSDevice) (start : BlockRef) (n : Nat) (hn : 0 < n) :
    ((allocate d start n).1 = [] ↔ (nextFreeBlock d start).t = 0) := by
  rw [allocate_fst d start n]
  split_ifs with h
  · simp [h]
  · simp only [h, iff_false]
    intro hmap
    rw [List.map_eq_nil_iff, List.range_eq_nil] at hmap
    omega

theorem sectorsPerTrack_le (t : Nat) : sectorsPerTrack t ≤ 21 := by
  unfold sectorsPerTrack
  split_ifs <;> omega

theorem isTrackSectorPair_elim (t s : Nat) (h : isTrackSectorPair t s = true) :
    (1 ≤ t ∧ t ≤ 35) ∧ s < sectorsPerTrack t := by
  simpa [isTrackSectorPair] using h

theorem tsToBlock_bounds_dec : ∀ t, t < 36 → ∀ s, s < 21 →
    t = 0 ∨ t = 18 ∨ (trackOffset t + s ≠ 357 ∧ trackOffset t + s ≠ 358) := by decide

theorem tsToBlock_lt683_dec : ∀ t, t < 36 → ∀ s, s < 21 →
    t = 0 ∨ ¬(s < sectorsPerTrack t) ∨ trackOffset t + s < 683 := by decide

theorem tsToBlock_ne_dirBam (t s : Nat) (hv : isTrackSectorPair t s = true)
    (h18 : t ≠ 18) : tsToBlock t s ≠ 357 ∧ tsToBlock t s ≠ 358 := by
  obtain ⟨⟨h1, h35⟩, hs⟩ := isTrackSectorPair_elim t s hv
  have hs21 : s < 21 := lt_of_lt_of_le hs (sectorsPerTrack_le t)
  rcases tsToBlock_bounds_dec t (by omega) s hs21 with h0 | h0 | h0
  · omega
  · omega
  · exact h0

theorem tsToBlock_lt683 (t s : Nat) (hv : isTrackSectorPair t s = true) :
    tsToBlock t s < 683 := by
  obtain ⟨⟨h1, h35⟩, hs⟩ := isTrackSectorPair_elim t s hv
  have hs21 : s < 21 := lt_of_lt_of_le hs (sectorsPerTrack_le t)
  rcases tsToBlock_lt683_dec t (by omega) s hs21 with h0 | h0 | h0
  · omega
  · exact absurd hs h0
  · exact h0

theorem isFree_updByte_ne_bam (d : FSDevice) (b o v : Nat) (r : BlockRef)
    (hb : b ≠ bamBlockNr) : isFree (updByte d b o v) r = isFree d r := by
  unfold isFree getBit
  rw [data_upd, if_neg (fun hc => hb hc.1.symm)]

theorem setAllocationBit_data_ne_bam (t s : Nat) (v : Bool) (d : FSDevice) (b o : Nat)
    (hb : b ≠ bamBlockNr) : (setAllocationBit t s v d).data b o = d.data b o := by
  unfold setAllocationBit
  dsimp only
  split_ifs <;>
    first
      | rfl
      | rw [data_upd, if_neg (fun hc => hb hc.1), data_upd, if_neg (fun hc => hb hc.1)]

theorem setLink_data_hi (d : FSDevice) (r2 tgt : BlockRef) (b o : Nat) (ho : 2 ≤ o) :
    (setLink d r2 tgt).data b o = d.data b o := by
  unfold setLink
  cases hbn : blockNrOf r2.t r2.s with
  | none => rfl
  | some b2 =>
      rw [data_upd, if_neg (by omega : ¬(b = b2 ∧ o = 1)),
        data_upd, if_neg (by omega : ¬(b = b2 ∧ o = 0))]

theorem setLink_data_ne (d : FSDevice) (r2 tgt : BlockRef) (b o : Nat)
    (hbne : b ≠ tsToBlock r2.t r2.s) :
    (setLink d r2 tgt).data b o = d.data b o := by
  unfold setLink
  cases hbn : blockNrOf r2.t r2.s with
  | none => rfl
  | some b2 =>
      have hb2 : b2 = tsToBlock r2.t r2.s := by
        unfold blockNrOf at hbn
        by_cases h : isTrackSectorPair r2.t r2.s = true
        · rw [if_pos h] at hbn
          exact (Option.some_inj.mp hbn).symm
        · rw [if_neg h] at hbn
          cases hbn
      rw [data_upd, if_neg (fun hc => hbne (hc.1.trans hb2)),
        data_upd, if_neg (fun hc => hbne (hc.1.trans hb2))]

theorem isFree_setLink (d : FSDevice) (r2 tgt r : BlockRef) (h18 : r2.t ≠ 18) :
    isFree (setLink d r2 tgt) r = isFree d r := by
  unfold setLink
  cases hbn : blockNrOf r2.t r2.s with
  | none => rfl
  | some b2 =>
      have hv : isTrackSectorPair r2.t r2.s = true ∧ b2 = tsToBlock r2.t r2.s := by
        unfold blockNrOf at hbn
        by_cases h : isTrackSectorPair r2.t r2.s = true
        · rw [if_pos h] at hbn
          exact ⟨h, (Option.some_inj.mp hbn).symm⟩
        · rw [if_neg h] at hbn
          cases hbn
      have hne : b2 ≠ bamBlockNr := by
        rw [hv.2]
        exact (tsToBlock_ne_dirBam r2.t r2.s hv.1 h18).1
      rw [isFree_updByte_ne_bam _ _ _ _ _ hne, isFree_updByte_ne_bam _ _ _ _ _ hne]

theorem isFree_setAllocationBit_false_self (t s : Nat) (d : FSDevice)
    (hv : isTrackSectorPair t s = true) :
    isFree (setAllocationBit t s false d) ⟨t, s⟩ = false := by
  obtain ⟨⟨h1, h35⟩, hs⟩ := isTrackSectorPair_elim t s hv
  have hs21 : s < 21 := lt_of_lt_of_le hs (sectorsPerTrack_le t)
  have hdiv : s / 8 ≤ 2 := by omega
  have hbit : s % 8 < 8 := by omega
  unfold setAllocationBit
  simp only [hv, if_true]
  rw [if_neg (by simp)]
  split_ifs with h2
  · unfold isFree getBit
    dsimp only
    rw [data_upd, if_neg (by simp; omega), data_upd, if_pos ⟨rfl, rfl⟩]
    rw [testBit_mod256 _ _ hbit]
    exact testBit_clrBit8_self _ _ hbit
  · unfold isFree getBit
    simp at h2
    simpa using h2

theorem isFree_setAllocationBit_false_mono (t' s' : Nat) (d : FSDevice) (r : BlockRef)
    (hr : r.s / 8 ≤ 2) (h : isFree d r = false) :
    isFree (setAllocationBit t' s' false d) r = false := by
  by_cases hv : isTrackSectorPair t' s' = true
  case neg =>
    unfold setAllocationBit
    simp only [hv]
    simpa using h
  obtain ⟨⟨h1, h35⟩, hs⟩ := isTrackSectorPair_elim t' s' hv
  have hs21 : s' < 21 := lt_of_lt_of_le hs (sectorsPerTrack_le t')
  have hdiv : s' / 8 ≤ 2 := by omega
  have hbit : s' % 8 < 8 := by omega
  have hrbit : r.s % 8 < 8 := by omega
  unfold setAllocationBit
  simp only [hv, if_true]
  rw [if_neg (by simp)]
  split_ifs with h2
  · unfold isFree getBit at h ⊢
    rw [data_upd, if_neg (by simp; omega)]
    by_cases hcell : 4 * r.t + 1 + r.s / 8 = 4 * t' + 1 + s' / 8
    · rw [data_upd, if_pos ⟨rfl, hcell⟩, testBit_mod256 _ _ hrbit]
      by_cases hbb : r.s % 8 = s' % 8
      · rw [hbb]
        exact testBit_clrBit8_self _ _ hbit
      · rw [testBit_clrBit8_other _ _ _ hbit hrbit hbb]
        rw [hcell] at h
        exact h
    · rw [data_upd, if_neg (by simp [hcell])]
      exact h
  · simpa using h

theorem allocGo_step_snd (m : Nat) (d : FSDevice) (r : BlockRef) :
    (allocGo (m + 1) d r).2 =
      (allocGo m (setLink (markAsAllocated r.t r.s d) r (nextTS dataInterleave r))
        (nextTS dataInterleave r)).2 := rfl

theorem allocGo_preserves_notfree (n : Nat) (d : FSDevice) (r x : BlockRef)
    (hr : r.t ≠ 18) (hx : x.s / 8 ≤ 2) (h : isFree d x = false) :
    isFree (allocGo n d r).2 x = false := by
  induction n generalizing d r with
  | zero => exact h
  | succ m ih =>
      rw [allocGo_step_snd]
      apply ih _ _ (nextTS_ne18 _ r hr)
      rw [isFree_setLink _ r _ x hr]
      exact isFree_setAllocationBit_false_mono r.t r.s d x hx h

theorem allocGo_marks_notfree (n : Nat) (d : FSDevice) (r : BlockRef) (hr : r.t ≠ 18) :
    ∀ x ∈ (allocGo n d r).1, isValidRef x = true →
      isFree (allocGo n d r).2 x = false := by
  induction n generalizing d r with
  | zero =>
      intro x hx
      simp [allocGo] at hx
  | succ m ih =>
      intro x hx hval
      have hmem : x = r ∨ x ∈ (allocGo m
          (setLink (markAsAllocated r.t r.s d) r (nextTS dataInterleave r))
          (nextTS dataInterleave r)).1 := List.mem_cons.mp hx
      rcases hmem with rfl | hx'
      · have hvp : isTrackSectorPair x.t x.s = true := hval
        have hxs : x.s / 8 ≤ 2 := by
          obtain ⟨_, hs⟩ := isTrackSectorPair_elim x.t x.s hvp
          have := sectorsPerTrack_le x.t
          omega
        rw [allocGo_step_snd]
        apply allocGo_preserves_notfree m _ _ _ (nextTS_ne18 _ x hr) hxs
        rw [isFree_setLink _ x _ x hr]
        exact isFree_setAllocationBit_false_self x.t x.s d hvp
      · rw [allocGo_step_snd]
        exact ih _ _ (nextTS_ne18 _ r hr) x hx' hval

theorem allocGo_frame_block (n : Nat) (d : FSDevice) (r : BlockRef) (b o : Nat)
    (hbam : b ≠ bamBlockNr)
    (hnot : ∀ j, j < n → b ≠ tsToBlock (iterTS j r).t (iterTS j r).s) :
    (allocGo n d r).2.data b o = d.data b o := by
  induction n generalizing d r with
  | zero => rfl
  | succ m ih =>
      rw [allocGo_step_snd]
      rw [ih _ _ (fun j hj => by
        have h := hnot (j + 1) (by omega)
        exact h)]
      rw [setLink_data_ne _ r _ b o (hnot 0 (by omega))]
      unfold markAsAllocated
      rw [setAllocationBit_data_ne_bam _ _ _ _ _ _ hbam]

theorem blockNrOf_valid (t s : Nat) (hv : isTrackSectorPair t s = true) :
    blockNrOf t s = some (tsToBlock t s) := by
  unfold blockNrOf
  rw [if_pos hv]

theorem setLink_read (d : FSDevice) (r2 tgt : BlockRef)
    (hv : isTrackSectorPair r2.t r2.s = true) :
    (setLink d r2 tgt).data (tsToBlock r2.t r2.s) 0 = tgt.t % 256 ∧
    (setLink d r2 tgt).data (tsToBlock r2.t r2.s) 1 = tgt.s % 256 := by
  unfold setLink
  simp only [blockNrOf_valid r2.t r2.s hv]
  constructor
  · rw [data_upd, if_neg (by simp), data_upd, if_pos ⟨rfl, rfl⟩]
  · rw [data_upd, if_pos ⟨rfl, rfl⟩]

theorem allocGo_link_at (i : Nat) :
    ∀ (n : Nat) (d : FSDevice) (r : BlockRef), i + 1 ≤ n →
    isTrackSectorPair (iterTS i r).t (iterTS i r).s = true →
    (iterTS i r).t ≠ 18 →
    (∀ j, i < j → j < n →
      tsToBlock (iterTS j r).t (iterTS j r).s ≠ tsToBlock (iterTS i r).t (iterTS i r).s) →
    (allocGo n d r).2.data (tsToBlock (iterTS i r).t (iterTS i r).s) 0 =
      (iterTS (i + 1) r).t % 256 ∧
    (allocGo n d r).2.data (tsToBlock (iterTS i r).t (iterTS i r).s) 1 =
      (iterTS (i + 1) r).s % 256 := by
  induction i with
  | zero =>
      intro n d r hn hval h18 hdist
      rcases n with _ | m
      · omega
      rw [allocGo_step_snd]
      have hbam : tsToBlock r.t r.s ≠ bamBlockNr :=
        (tsToBlock_ne_dirBam r.t r.s hval h18).1
      have hnot' : ∀ j, j < m →
          tsToBlock r.t r.s ≠
            tsToBlock (iterTS j (nextTS dataInterleave r)).t
              (iterTS j (nextTS dataInterleave r)).s := by
        intro j hj
        exact (hdist (j + 1) (by omega) (by omega)).symm
      have hread := setLink_read (markAsAllocated r.t r.s d) r (nextTS dataInterleave r) hval
      have hit0 : iterTS 0 r = r := rfl
      have hit1 : iterTS (0 + 1) r = nextTS dataInterleave r := rfl
      constructor
      · rw [hit0, hit1, allocGo_frame_block m _ _ _ 0 hbam hnot']
        exact hread.1
      · rw [hit0, hit1, allocGo_frame_block m _ _ _ 1 hbam hnot']
        exact hread.2
  | succ k ih =>
      intro n d r hn hval h18 hdist
      rcases n with _ | m
      · omega
      rw [allocGo_step_snd]
      exact ih m _ (nextTS dataInterleave r) (by omega) hval h18
        (fun j hj hjm => hdist (j + 1) (by omega) (by omega))

theorem refs_getLast (n : Nat) (hn : 0 < n) (r0 : BlockRef) :
    ((List.range n).map (fun i => iterTS i r0)).getLast? = some (iterTS (n - 1) r0) := by
  rw [List.getLast?_eq_getElem?, List.length_map, List.length_range,
    List.getElem?_map, List.getElem?_range (by omega)]
  rfl

theorem allocate_snd_eq (d : FSDevice) (n : Nat) (hn : 0 < n)
    (h0 : (nextFreeBlock d ⟨1, 0⟩).t ≠ 0) :
    (allocate d ⟨1, 0⟩ n).2 =
      setLink (allocGo n d (nextFreeBlock d ⟨1, 0⟩)).2
        (iterTS (n - 1) (nextFreeBlock d ⟨1, 0⟩)) ⟨0, 0⟩ := by
  unfold allocate
  dsimp only
  rw [if_neg h0]
  have hlast : (allocGo n d (nextFreeBlock d ⟨1, 0⟩)).1.getLast? =
      some (iterTS (n - 1) (nextFreeBlock d ⟨1, 0⟩)) := by
    rw [allocGo_refs]
    exact refs_getLast n hn _
  simp only [hlast]

/-- C3, counterexample: on oneFreeDevice only one block, (1, 0), is
free, yet allocate from (1, 0) with n = 2 returns two blocks instead of
the empty list, and the second one, (1, 10), did not have its BAM bit
set when it was picked (it was not free right after the first pick). -/
theorem C3_counterexample :
    countFree oneFreeDevice = 1 ∧
    (allocate oneFreeDevice ⟨1, 0⟩ 2).1 = [⟨1, 0⟩, ⟨1, 10⟩] ∧
    isFree (markAsAllocated 1 0 oneFreeDevice) ⟨1, 10⟩ = false ∧
    isFree oneFreeDevice ⟨1, 10⟩ = false := by
  refine ⟨by decide, by decide, by decide, by decide⟩

/-- C3, amended: allocate(start = (1, 0), n) walks the next-block order
and returns the empty list exactly when no free block is reachable from
the start; otherwise it returns n references of which only the FIRST is
guaranteed to have been free (the loop never consults the BAM again and
takes the next-block successors unconditionally, so fewer than n free
blocks still yield n picks); the walk skips track 18, every returned
valid block is marked allocated in the returned device, consecutive
picks are linked in order, and the link of the last pick is (0, 0). -/
theorem C3_allocate_amended (d : FSDevice) (n : Nat) (hn : 0 < n)
    (hsep : ∀ i, i < n → ∀ j, j < n → i ≠ j →
      tsToBlock (iterTS i (nextFreeBlock d ⟨1, 0⟩)).t
          (iterTS i (nextFreeBlock d ⟨1, 0⟩)).s ≠
        tsToBlock (iterTS j (nextFreeBlock d ⟨1, 0⟩)).t
          (iterTS j (nextFreeBlock d ⟨1, 0⟩)).s) :
    ((allocate d ⟨1, 0⟩ n).1 = [] ↔ (nextFreeBlock d ⟨1, 0⟩).t = 0) ∧
    ((nextFreeBlock d ⟨1, 0⟩).t ≠ 0 →
      isFree d (nextFreeBlock d ⟨1, 0⟩) = true ∧
      (allocate d ⟨1, 0⟩ n).1 =
        (List.range n).map (fun i => iterTS i (nextFreeBlock d ⟨1, 0⟩)) ∧
      (∀ r ∈ (allocate d ⟨1, 0⟩ n).1, r.t ≠ 18) ∧
      (∀ r ∈ (allocate d ⟨1, 0⟩ n).1, isValidRef r = true →
        isFree (allocate d ⟨1, 0⟩ n).2 r = false) ∧
      (∀ i, i + 1 < n →
        isValidRef (iterTS i (nextFreeBlock d ⟨1, 0⟩)) = true →
        (allocate d ⟨1, 0⟩ n).2.data
            (tsToBlock (iterTS i (nextFreeBlock d ⟨1, 0⟩)).t
              (iterTS i (nextFreeBlock d ⟨1, 0⟩)).s) 0 =
          (iterTS (i + 1) (nextFreeBlock d ⟨1, 0⟩)).t % 256 ∧
        (allocate d ⟨1, 0⟩ n).2.data
            (tsToBlock (iterTS i (nextFreeBlock d ⟨1, 0⟩)).t
              (iterTS i (nextFreeBlock d ⟨1, 0⟩)).s) 1 =
          (iterTS (i + 1) (nextFreeBlock d ⟨1, 0⟩)).s % 256) ∧
      (isValidRef (iterTS (n - 1) (nextFreeBlock d ⟨1, 0⟩)) = true →
        (allocate d ⟨1, 0⟩ n).2.data
            (tsToBlock (iterTS (n - 1) (nextFreeBlock d ⟨1, 0⟩)).t
              (iterTS (n - 1) (nextFreeBlock d ⟨1, 0⟩)).s) 0 = 0 ∧
        (allocate d ⟨1, 0⟩ n).2.data
            (tsToBlock (iterTS (n - 1) (nextFreeBlock d ⟨1, 0⟩)).t
              (iterTS (n - 1) (nextFreeBlock d ⟨1, 0⟩)).s) 1 = 0)) := by
  have hne18 : (nextFreeBlock d ⟨1, 0⟩).t ≠ 18 := nextFreeBlock_start_ne18 d
  refine ⟨allocate_empty_iff d ⟨1, 0⟩ n hn, ?_⟩
  intro h0
  have hfree : isFree d (nextFreeBlock d ⟨1, 0⟩) = true := by
    rcases (nextFreeBlock_start_spec d).1 with h | h
    · exact absurd h h0
    · exact h
  have hfst : (allocate d ⟨1, 0⟩ n).1 =
      (List.range n).map (fun i => iterTS i (nextFreeBlock d ⟨1, 0⟩)) := by
    rw [allocate_fst, if_neg h0]
  have hsnd := allocate_snd_eq d n hn h0
  have hlast18 : (iterTS (n - 1) (nextFreeBlock d ⟨1, 0⟩)).t ≠ 18 :=
    iterTS_ne18 _ _ hne18
  refine ⟨hfree, hfst, ?_, ?_, ?_, ?_⟩
  · intro r hr
    rw [hfst] at hr
    obtain ⟨i, hmem, heq⟩ := List.mem_map.mp hr
    rw [← heq]
    exact iterTS_ne18 _ _ hne18
  · intro r hr hval
    rw [hfst] at hr
    rw [hsnd, isFree_setLink _ _ _ _ hlast18]
    apply allocGo_marks_notfree n d _ hne18
    · rw [allocGo_refs]
      exact hr
    · exact hval
  · intro i hi hval
    rw [hsnd]
    have hlink := allocGo_link_at i n d (nextFreeBlock d ⟨1, 0⟩) (by omega) hval
      (iterTS_ne18 _ _ hne18)
      (fun j hij hjn => hsep j hjn i (by omega) (by omega))
    have hnelast : tsToBlock (iterTS i (nextFreeBlock d ⟨1, 0⟩)).t
        (iterTS i (nextFreeBlock d ⟨1, 0⟩)).s ≠
        tsToBlock (iterTS (n - 1) (nextFreeBlock d ⟨1, 0⟩)).t
          (iterTS (n - 1) (nextFreeBlock d ⟨1, 0⟩)).s :=
      hsep i (by omega) (n - 1) (by omega) (by omega)
    constructor
    · rw [setLink_data_ne _ _ _ _ _ hnelast]
      exact hlink.1
    · rw [setLink_data_ne _ _ _ _ _ hnelast]
      exact hlink.2
  · intro hval
    rw [hsnd]
    have hread := setLink_read (allocGo n d (nextFreeBlock d ⟨1, 0⟩)).2
      (iterTS (n - 1) (nextFreeBlock d ⟨1, 0⟩)) ⟨0, 0⟩ hval
    exact ⟨hread.1, hread.2⟩

theorem C3_witness :
    isFree formatD64 (nextFreeBlock formatD64 ⟨1, 0⟩) = true ∧
    (allocate formatD64 ⟨1, 0⟩ 2).1 =
      (List.range 2).map (fun i => iterTS i (nextFreeBlock formatD64 ⟨1, 0⟩)) := by
  have h := C3_allocate_amended formatD64 2 (by norm_num) (by decide)
  have h2 := h.2 (by decide)
  exact ⟨h2.1, h2.2.1⟩

theorem scanGo_eq (d : FSDevice) (skip : Bool) :
    ∀ (cnt i : Nat) (p : Option Nat),
    scanGo d skip cnt i p =
      ((entrySeq d cnt i p).takeWhile (fun e => !dirEntryEmpty d e.1 e.2)).filter
        (fun e => !(skip && dirEntryHidden d e.1 e.2)) := by
  intro cnt
  induction cnt with
  | zero => intro i p; rfl
  | succ m ih =>
      intro i p
      cases p with
      | none => rfl
      | some b =>
          by_cases he : dirEntryEmpty d b (i % 8) = true
          · simp [scanGo, entrySeq, he]
          · cases hs : skip <;> simp only [hs] at ih <;>
              cases hd : dirEntryHidden d b (i % 8) <;>
              simp [scanGo, entrySeq, he, hs, hd, List.takeWhile_cons,
                List.filter_cons, ih]

/-- C6, amended: scanDirectory walks the chain from block (18, 1), eight
entries per sector, and stops exactly at the first empty entry anywhere
in the directory (not only when the first entry of a sector is empty),
or after 144 entries, or when a sector link leaves the directory; every
entry before that point appears in order, with hidden entries dropped
when skipInvisible is set. -/
theorem C6_scanDirectory_characterization (d : FSDevice) (skip : Bool) :
    scanDirectory d skip =
      ((entrySeq d 144 0 (blockPtrTS d 18 1)).takeWhile
        (fun e => !dirEntryEmpty d e.1 e.2)).filter
        (fun e => !(skip && dirEntryHidden d e.1 e.2)) :=
  scanGo_eq d skip 144 0 (blockPtrTS d 18 1)

/-- C6, counterexample: on gapDirDevice the directory sector holds a
used entry in slot 0, an empty one in slot 1 and a used one in slot 2;
the scan stops at slot 1 and returns only slot 0, although slot 2 is a
non-empty entry and neither 144 entries were reached nor is any first
entry of a sector empty, so the stop condition of the claim is wrong. -/
theorem C6_counterexample :
    scanDirectory gapDirDevice false = [(358, 0)] ∧
    dirEntryEmpty gapDirDevice 358 0 = false ∧
    dirEntryEmpty gapDirDevice 358 2 = false ∧
    (358, 2) ∉ scanDirectory gapDirDevice false := by
  refine ⟨by decide, by decide, by decide, by decide⟩

theorem updByte_numBlocks (d : FSDevice) (b o v : Nat) :
    (updByte d b o v).numBlocks = d.numBlocks := rfl

theorem updByteTS_numBlocks (d : FSDevice) (r : BlockRef) (o v : Nat) :
    (updByteTS d r o v).numBlocks = d.numBlocks := by
  unfold updByteTS
  cases blockNrOf r.t r.s <;> rfl

theorem setAllocationBit_numBlocks (t s : Nat) (v : Bool) (d : FSDevice) :
    (setAllocationBit t s v d).numBlocks = d.numBlocks := by
  unfold setAllocationBit
  dsimp only
  split_ifs <;> rfl

theorem setLink_numBlocks (d : FSDevice) (r tgt : BlockRef) :
    (setLink d r tgt).numBlocks = d.numBlocks := by
  unfold setLink
  cases blockNrOf r.t r.s <;> rfl

theorem allocGo_numBlocks (n : Nat) (d : FSDevice) (r : BlockRef) :
    (allocGo n d r).2.numBlocks = d.numBlocks := by
  induction n generalizing d r with
  | zero => rfl
  | succ m ih =>
      rw [allocGo_step_snd, ih, setLink_numBlocks]
      unfold markAsAllocated
      rw [setAllocationBit_numBlocks]

theorem allocate_numBlocks (d : FSDevice) (start : BlockRef) (n : Nat) :
    (allocate d start n).2.numBlocks = d.numBlocks := by
  unfold allocate
  dsimp only
  split_ifs
  · rfl
  · cases (allocGo n d (nextFreeBlock d start)).1.getLast? with
    | none => exact allocGo_numBlocks n d _
    | some last =>
        show (setLink (allocGo n d (nextFreeBlock d start)).2 last ⟨0, 0⟩).numBlocks = _
        rw [setLink_numBlocks]
        exact allocGo_numBlocks n d _

theorem writeGo_numBlocks (buf : List Nat) :
    ∀ (cur : BlockRef) (rest : List BlockRef) (j : Nat) (d : FSDevice),
    (writeGo buf cur rest j d).numBlocks = d.numBlocks := by
  induction buf with
  | nil => intro cur rest j d; rfl
  | cons byte buf ih =>
      intro cur rest j d
      unfold writeGo
      split_ifs
      · cases rest with
        | nil => rfl
        | cons cur' rest' => rw [ih, updByteTS_numBlocks]
      · rw [ih, updByteTS_numBlocks]

theorem writeData_numBlocks (d : FSDevice) (blks : List BlockRef) (buf : List Nat) :
    (writeData d blks buf).numBlocks = d.numBlocks := by
  unfold writeData
  cases blks with
  | nil => rfl
  | cons c r => exact writeGo_numBlocks buf c r 2 d

theorem writeBytes_numBlocks (d : FSDevice) (b : Nat) (ws : List (Nat × Nat)) :
    (writeBytes d b ws).numBlocks = d.numBlocks := by
  induction ws generalizing d with
  | nil => rfl
  | cons w rest ih => exact (ih _).trans rfl

theorem dirInit_numBlocks (d : FSDevice) (b slot : Nat) (name : List Nat)
    (first : BlockRef) (nblocks : Nat) :
    (dirInit d b slot name first nblocks).numBlocks = d.numBlocks :=
  writeBytes_numBlocks d b _

/-- Offset-based frame for the allocation loop: it only writes the BAM
block and the two link bytes of picked blocks. -/
theorem allocGo_frame_hi (n : Nat) (d : FSDevice) (r : BlockRef) (b o : Nat)
    (hbam : b ≠ bamBlockNr) (ho : 2 ≤ o) :
    (allocGo n d r).2.data b o = d.data b o := by
  induction n generalizing d r with
  | zero => rfl
  | succ m ih =>
      rw [allocGo_step_snd, ih, setLink_data_hi _ _ _ _ _ ho]
      unfold markAsAllocated
      rw [setAllocationBit_data_ne_bam _ _ _ _ _ _ hbam]

theorem allocate_frame_hi (d : FSDevice) (start : BlockRef) (n : Nat) (b o : Nat)
    (hbam : b ≠ bamBlockNr) (ho : 2 ≤ o) :
    (allocate d start n).2.data b o = d.data b o := by
  unfold allocate
  dsimp only
  split_ifs
  · rfl
  · cases (allocGo n d (nextFreeBlock d start)).1.getLast? with
    | none => exact allocGo_frame_hi n d _ b o hbam ho
    | some last =>
        show (setLink (allocGo n d (nextFreeBlock d start)).2 last ⟨0, 0⟩).data b o = _
        rw [setLink_data_hi _ _ _ _ _ ho]
        exact allocGo_frame_hi n d _ b o hbam ho

theorem chunkBlock_head (c : BlockRef) (l : List BlockRef) (m : Nat) (hm : m < 254) :
    chunkBlock (c :: l) m = c := by
  unfold chunkBlock
  rw [Nat.div_eq_of_lt hm]
  rfl

theorem chunkBlock_shift (c : BlockRef) (l : List BlockRef) (m : Nat) :
    chunkBlock (c :: l) (254 + m) = chunkBlock l m := by
  unfold chunkBlock
  rw [show (254 + m) / 254 = m / 254 + 1 by omega, List.getD_cons_succ]

theorem chunkOff_shift (m : Nat) : chunkOff (254 + m) = chunkOff m := by
  unfold chunkOff
  rw [show (254 + m) % 254 = m % 254 by omega]

theorem chunkOff_low (m : Nat) (hm : m < 254) : chunkOff m = 2 + m := by
  unfold chunkOff
  rw [Nat.mod_eq_of_lt hm]

theorem updByteTS_valid (d : FSDevice) (r : BlockRef) (o v : Nat)
    (hv : isTrackSectorPair r.t r.s = true) :
    updByteTS d r o v = updByte d (tsToBlock r.t r.s) o v := by
  unfold updByteTS
  rw [blockNrOf_valid r.t r.s hv]

theorem updByteTS_data_other (d : FSDevice) (r : BlockRef) (o v b' o' : Nat)
    (h : ¬(b' = tsToBlock r.t r.s ∧ o' = o)) :
    (updByteTS d r o v).data b' o' = d.data b' o' := by
  unfold updByteTS
  cases hbn : blockNrOf r.t r.s with
  | none => rfl
  | some b2 =>
      have hb2 : b2 = tsToBlock r.t r.s := by
        unfold blockNrOf at hbn
        by_cases hvv : isTrackSectorPair r.t r.s = true
        · rw [if_pos hvv] at hbn
          exact (Option.some_inj.mp hbn).symm
        · rw [if_neg hvv] at hbn
          cases hbn
      rw [data_upd, if_neg (fun hc => h ⟨hc.1.trans hb2, hc.2⟩)]

theorem writeGo_frame (buf : List Nat) :
    ∀ (cur : BlockRef) (rest : List BlockRef) (j : Nat) (d : FSDevice) (b o : Nat),
    2 ≤ j → j ≤ 256 →
    (∀ i, i < buf.length →
      ¬(b = tsToBlock (chunkBlock (cur :: rest) (j - 2 + i)).t
            (chunkBlock (cur :: rest) (j - 2 + i)).s ∧
        o = chunkOff (j - 2 + i))) →
    (writeGo buf cur rest j d).data b o = d.data b o := by
  induction buf with
  | nil => intro cur rest j d b o _ _ _; rfl
  | cons byte buf ih =>
      intro cur rest j d b o hj2 hj256 hno
      unfold writeGo
      split_ifs with h256
      · cases rest with
        | nil => rfl
        | cons cur' rest' =>
            subst h256
            rw [ih cur' rest' 3 _ b o (by omega) (by omega) ?later]
            case later =>
              intro i hi
              have h := hno (i + 1) (by simp; omega)
              rw [show (256 : Nat) - 2 + (i + 1) = 254 + (1 + i) by omega,
                chunkBlock_shift, chunkOff_shift] at h
              exact h
            have h0 := hno 0 (by simp)
            rw [show (256 : Nat) - 2 + 0 = 254 + 0 by omega, chunkBlock_shift,
              chunkOff_shift] at h0
            rw [chunkBlock_head _ _ _ (by omega), chunkOff_low _ (by omega)] at h0
            exact updByteTS_data_other _ _ _ _ _ _ (fun hc => h0 ⟨hc.1, hc.2⟩)
      · rw [ih cur rest (j + 1) _ b o (by omega) (by omega) ?later2]
        case later2 =>
          intro i hi
          have h := hno (i + 1) (by simp; omega)
          rw [show j - 2 + (i + 1) = j + 1 - 2 + i by omega] at h
          exact h
        have h0 := hno 0 (by simp)
        have hjlt : j - 2 + 0 < 254 := by omega
        rw [chunkBlock_head _ _ _ hjlt, chunkOff_low _ hjlt] at h0
        rw [show 2 + (j - 2 + 0) = j by omega] at h0
        exact updByteTS_data_other _ _ _ _ _ _ h0

theorem writeGo_data (buf : List Nat) :
    ∀ (cur : BlockRef) (rest : List BlockRef) (j : Nat) (d : FSDevice),
    2 ≤ j → j ≤ 256 →
    (j - 2) + buf.length ≤ 254 * (1 + rest.length) →
    (∀ x ∈ cur :: rest, isValidRef x = true) →
    (∀ p q : Nat, p ≤ rest.length → q ≤ rest.length → p ≠ q →
      tsToBlock ((cur :: rest).getD p ⟨0, 0⟩).t ((cur :: rest).getD p ⟨0, 0⟩).s ≠
        tsToBlock ((cur :: rest).getD q ⟨0, 0⟩).t ((cur :: rest).getD q ⟨0, 0⟩).s) →
    ∀ i, i < buf.length →
    (writeGo buf cur rest j d).data
        (tsToBlock (chunkBlock (cur :: rest) (j - 2 + i)).t
          (chunkBlock (cur :: rest) (j - 2 + i)).s)
        (chunkOff (j - 2 + i)) = buf.getD i 0 % 256 := by
  induction buf with
  | nil =>
      intro cur rest j d _ _ _ _ _ i hi
      simp at hi
  | cons byte buf ih =>
      intro cur rest j d hj2 hj256 hlen hval hdist i hi
      rw [List.length_cons] at hlen
      unfold writeGo
      split_ifs with h256
      · -- advance to the next block of the list
        cases rest with
        | nil =>
            exfalso
            simp at hlen
            omega
        | cons cur' rest' =>
            subst h256
            have hval' : ∀ x ∈ cur' :: rest', isValidRef x = true := by
              intro x hx
              exact hval x (List.mem_cons_of_mem cur hx)
            have hdist' : ∀ p q : Nat, p ≤ rest'.length → q ≤ rest'.length → p ≠ q →
                tsToBlock ((cur' :: rest').getD p ⟨0, 0⟩).t
                    ((cur' :: rest').getD p ⟨0, 0⟩).s ≠
                  tsToBlock ((cur' :: rest').getD q ⟨0, 0⟩).t
                    ((cur' :: rest').getD q ⟨0, 0⟩).s := by
              intro p q hp hq hpq
              exact hdist (p + 1) (q + 1) (by simp; omega) (by simp; omega) (by omega)
            cases i with
            | zero =>
                rw [show (256 : Nat) - 2 + 0 = 254 + 0 by omega, chunkBlock_shift,
                  chunkOff_shift]
                rw [chunkBlock_head _ _ _ (by omega), chunkOff_low _ (by omega)]
                rw [writeGo_frame buf cur' rest' 3 _ _ _ (by omega) (by omega) ?frame0]
                case frame0 =>
                  intro i' hi' hc
                  obtain ⟨hc1, hc2⟩ := hc
                  by_cases hp : 3 - 2 + i' < 254
                  · rw [chunkOff_low _ hp] at hc2
                    omega
                  · have hidx1 : 1 ≤ (3 - 2 + i') / 254 := by omega
                    have hidx2 : (3 - 2 + i') / 254 ≤ rest'.length := by
                      have hb : 3 - 2 + i' < 254 * (1 + rest'.length) := by
                        simp at hlen
                        omega
                      omega
                    exact absurd hc1
                      (hdist' 0 ((3 - 2 + i') / 254) (by omega) hidx2 (by omega))
                rw [updByteTS_valid _ _ _ _ (hval' cur' (by simp)), data_upd,
                  if_pos ⟨rfl, rfl⟩]
                rfl
            | succ k =>
                rw [show (256 : Nat) - 2 + (k + 1) = 254 + (3 - 2 + k) by omega,
                  chunkBlock_shift, chunkOff_shift]
                rw [ih cur' rest' 3 _ (by omega) (by omega) (by simp at hlen ⊢; omega)
                  hval' hdist' k (by simpa using hi)]
                rfl
      · -- write into the current block
        cases i with
        | zero =>
            have hjlt : j - 2 + 0 < 254 := by omega
            rw [chunkBlock_head _ _ _ hjlt, chunkOff_low _ hjlt,
              show 2 + (j - 2 + 0) = j by omega]
            rw [writeGo_frame buf cur rest (j + 1) _ _ _ (by omega) (by omega) ?frame1]
            case frame1 =>
              intro i' hi' hc
              obtain ⟨hc1, hc2⟩ := hc
              by_cases hp : j + 1 - 2 + i' < 254
              · rw [chunkOff_low _ hp] at hc2
                omega
              · have hidx1 : 1 ≤ (j + 1 - 2 + i') / 254 := by omega
                have hidx2 : (j + 1 - 2 + i') / 254 ≤ rest.length := by
                  have hb : j + 1 - 2 + i' < 254 * (1 + rest.length) := by omega
                  omega
                exact absurd hc1
                  (hdist 0 ((j + 1 - 2 + i') / 254) (by omega) hidx2 (by omega))
            rw [updByteTS_valid _ _ _ _ (hval cur (by simp)), data_upd,
              if_pos ⟨rfl, rfl⟩]
            rfl
        | succ k =>
            rw [show j - 2 + (k + 1) = j + 1 - 2 + k by omega]
            rw [ih cur rest (j + 1) _ (by omega) (by omega) (by omega) hval hdist k
              (by simpa using hi)]
            rfl

theorem writeData_frame (d : FSDevice) (blks : List BlockRef) (buf : List Nat) (b o : Nat)
    (hno : ∀ i, i < buf.length →
      ¬(b = tsToBlock (chunkBlock blks i).t (chunkBlock blks i).s ∧ o = chunkOff i)) :
    (writeData d blks buf).data b o = d.data b o := by
  unfold writeData
  cases blks with
  | nil => rfl
  | cons c r =>
      apply writeGo_frame buf c r 2 d b o (by omega) (by omega)
      intro i hi
      rw [show (2 : Nat) - 2 + i = i from by omega]
      exact hno i hi

theorem writeData_read (d : FSDevice) (blks : List BlockRef) (buf : List Nat)
    (hlen : buf.length ≤ 254 * blks.length)
    (hval : ∀ x ∈ blks, isValidRef x = true)
    (hdist : ∀ p q : Nat, p < blks.length → q < blks.length → p ≠ q →
      tsToBlock (blks.getD p ⟨0, 0⟩).t (blks.getD p ⟨0, 0⟩).s ≠
        tsToBlock (blks.getD q ⟨0, 0⟩).t (blks.getD q ⟨0, 0⟩).s)
    (i : Nat) (hi : i < buf.length) :
    (writeData d blks buf).data
        (tsToBlock (chunkBlock blks i).t (chunkBlock blks i).s) (chunkOff i) =
      buf.getD i 0 % 256 := by
  unfold writeData
  cases blks with
  | nil =>
      exfalso
      simp only [List.length_nil] at hlen
      omega
  | cons c r =>
      have h := writeGo_data buf c r 2 d (by omega) (by omega)
        (by simp at hlen ⊢; omega) hval
        (fun p q hp hq hpq => hdist p q (by simp; omega) (by simp; omega) hpq) i hi
      rwa [show (2 : Nat) - 2 + i = i from by omega] at h

theorem writeBytes_step (d : FSDevice) (b : Nat) (w : Nat × Nat) (ws : List (Nat × Nat)) :
    writeBytes d b (w :: ws) = writeBytes (updByte d b w.1 w.2) b ws := rfl

theorem writeBytes_frame (d : FSDevice) (b : Nat) (ws : List (Nat × Nat)) (b' o' : Nat)
    (h : ∀ p ∈ ws, ¬(b' = b ∧ o' = p.1)) :
    (writeBytes d b ws).data b' o' = d.data b' o' := by
  induction ws generalizing d with
  | nil => rfl
  | cons w rest ih =>
      rw [writeBytes_step, ih _ (fun p hp => h p (List.mem_cons_of_mem w hp)),
        data_upd, if_neg (h w (List.mem_cons_self w rest))]

theorem readBlockPayload_length (d : FSDevice) (b : Nat) :
    (readBlockPayload d b).length = 254 := by
  unfold readBlockPayload
  simp

theorem readBlockPayload_getD (d : FSDevice) (b k : Nat) (hk : k < 254) :
    (readBlockPayload d b).getD k 0 = d.data b (2 + k) := by
  unfold readBlockPayload
  rw [List.getD_eq_getElem _ _ (by simp; omega), List.getElem_map, List.getElem_range]

theorem flat254 (g : Nat → List Nat) (k : Nat) (hlen : ∀ m, m < k → (g m).length = 254) :
    ((List.range k).map g).flatten.length = 254 * k ∧
    (∀ p, p < 254 * k →
      ((List.range k).map g).flatten.getD p 0 = (g (p / 254)).getD (p % 254) 0) := by
  induction k generalizing g with
  | zero => exact ⟨rfl, by omega⟩
  | succ m ih =>
      rw [List.range_succ_eq_map, List.map_cons, List.map_map, List.flatten_cons]
      have ihm := ih (fun x => g (x + 1)) (fun x hx => hlen (x + 1) (by omega))
      have hmap : List.map (g ∘ Nat.succ) (List.range m) =
          List.map (fun x => g (x + 1)) (List.range m) := by
        apply List.map_congr_left
        intro x hx
        rfl
      rw [hmap]
      have hg0 : (g 0).length = 254 := hlen 0 (by omega)
      constructor
      · rw [List.length_append, hg0, ihm.1]
        ring
      · intro p hp
        by_cases hp254 : p < 254
        · rw [List.getD_append _ _ _ _ (by omega), Nat.div_eq_of_lt hp254,
            Nat.mod_eq_of_lt hp254]
        · rw [List.getD_append_right _ _ _ _ (by omega), hg0]
          simp only [ihm.2 (p - 254) (by omega)]
          rw [show (p - 254) / 254 + 1 = p / 254 by omega,
            show (p - 254) % 254 = p % 254 by omega]

/-- Reading a chain whose links walk the block sequence B 0, B 1, ...,
B (n - 1) and end with a zero track byte: the result is the
concatenation of the payloads of the blocks of the chain. -/
theorem readChainGo_chain (df : FSDevice) (n : Nat) (B : Nat → BlockRef)
    (hvalid : ∀ c, c < n → isTrackSectorPair (B c).t (B c).s = true)
    (hlt : ∀ c, c < n → tsToBlock (B c).t (B c).s < df.numBlocks)
    (hlink : ∀ c, c + 1 < n →
      df.data (tsToBlock (B c).t (B c).s) 0 = (B (c + 1)).t ∧
      df.data (tsToBlock (B c).t (B c).s) 1 = (B (c + 1)).s)
    (hlast : df.data (tsToBlock (B (n - 1)).t (B (n - 1)).s) 0 = 0) :
    ∀ fuel c, c < n → n - c ≤ fuel →
    readChainGo df fuel (some (tsToBlock (B c).t (B c).s)) =
      ((List.range (n - c)).map
        (fun m => readBlockPayload df (tsToBlock (B (c + m)).t (B (c + m)).s))).flatten := by
  intro fuel
  induction fuel with
  | zero =>
      intro c hc hf
      omega
  | succ f ih =>
      intro c hc hf
      unfold readChainGo
      by_cases hcl : c + 1 < n
      · have hl := hlink c hcl
        have ht1 : 1 ≤ (B (c + 1)).t := by
          obtain ⟨⟨h1, _⟩, _⟩ := isTrackSectorPair_elim _ _ (hvalid (c + 1) hcl)
          exact h1
        rw [if_neg (by omega)]
        have hnext : nextBlockNr df (tsToBlock (B c).t (B c).s) =
            some (tsToBlock (B (c + 1)).t (B (c + 1)).s) := by
          unfold nextBlockNr blockPtrTS
          rw [hl.1, hl.2, blockNrOf_valid _ _ (hvalid (c + 1) hcl)]
          unfold blockPtr
          dsimp only
          rw [if_pos (hlt (c + 1) hcl)]
        rw [hnext, ih (c + 1) hcl (by omega)]
        have hrange : n - c = (n - (c + 1)) + 1 := by omega
        rw [hrange, List.range_succ_eq_map, List.map_cons, List.map_map,
          List.flatten_cons]
        have hmap : List.map
            ((fun m => readBlockPayload df (tsToBlock (B (c + m)).t (B (c + m)).s)) ∘
              Nat.succ) (List.range (n - (c + 1))) =
            List.map (fun m => readBlockPayload df
              (tsToBlock (B (c + 1 + m)).t (B (c + 1 + m)).s)) (List.range (n - (c + 1))) := by
          apply List.map_congr_left
          intro x hx
          have : c + (x + 1) = c + 1 + x := by omega
          simp [Function.comp, this]
        rw [hmap]
        simp
      · have hceq : c = n - 1 := by omega
        subst hceq
        rw [hlast, if_pos rfl]
        have hrange : n - (n - 1) = 1 := by omega
        rw [hrange]
        rw [show List.range 1 = [0] from rfl, List.map_cons, List.map_nil,
          List.flatten_cons, List.flatten_nil, Nat.add_zero]

theorem scanGo_step (d : FSDevice) (skip : Bool) (cnt i b : Nat) :
    scanGo d skip (cnt + 1) i (some b) =
      if dirEntryEmpty d b (i % 8) then []
      else
        (if skip && dirEntryHidden d b (i % 8) then [] else [(b, i % 8)]) ++
          scanGo d skip cnt (i + 1) (if i % 8 = 7 then nextBlockNr d b else some b) := rfl

theorem dirInitWrites0_shape (name : List Nat) (first : BlockRef) (nb : Nat) :
    ∀ p ∈ dirInitWrites 0 name first nb,
      p.1 = 2 ∨ p.1 = 3 ∨ p.1 = 4 ∨ (5 ≤ p.1 ∧ p.1 ≤ 20) ∨ p.1 = 30 ∨ p.1 = 31 := by
  intro p hp
  simp [dirInitWrites] at hp
  rcases hp with hp | hp | hp | ⟨k, hk, hp⟩ | hp | hp
  · rw [hp]
    left
    rfl
  · rw [hp]
    right
    left
    rfl
  · rw [hp]
    right
    right
    left
    rfl
  · right
    right
    right
    left
    rw [← hp]
    simp
    omega
  · rw [hp]
    simp
  · rw [hp]
    simp

theorem dirInit0_frame_block (d : FSDevice) (name : List Nat) (first : BlockRef)
    (nb : Nat) (b o : Nat) (hb : b ≠ 358) :
    (dirInit d 358 0 name first nb).data b o = d.data b o := by
  unfold dirInit
  exact writeBytes_frame _ _ _ _ _ (fun p hp hc => hb hc.1)

theorem dirInit0_frame_off (d : FSDevice) (name : List Nat) (first : BlockRef)
    (nb : Nat) (b o : Nat)
    (ho : o ≠ 2 ∧ o ≠ 3 ∧ o ≠ 4 ∧ ¬(5 ≤ o ∧ o ≤ 20) ∧ o ≠ 30 ∧ o ≠ 31) :
    (dirInit d 358 0 name first nb).data b o = d.data b o := by
  unfold dirInit
  apply writeBytes_frame
  intro p hp hc
  rcases dirInitWrites0_shape name first nb p hp with h | h | h | h | h | h <;>
    rw [hc.2] at ho <;> omega

set_option maxRecDepth 10000 in
theorem nextFreeBlock_format : nextFreeBlock formatD64 ⟨1, 0⟩ = ⟨1, 0⟩ := by decide

set_option maxRecDepth 10000 in
theorem findSlot_format :
    findSlotGo formatD64 144 0 (blockPtrTS formatD64 18 1) = some (358, 0) := by decide

set_option maxRecDepth 10000 in
theorem walk_valid_164 : ∀ i, i < 164 → isValidRef (iterTS i ⟨1, 0⟩) = true := by decide

set_option maxRecDepth 100000 in
theorem walk_distinct_164 : ∀ i, i < 164 → ∀ j, j < 164 → i ≠ j →
    tsToBlock (iterTS i ⟨1, 0⟩).t (iterTS i ⟨1, 0⟩).s ≠
      tsToBlock (iterTS j ⟨1, 0⟩).t (iterTS j ⟨1, 0⟩).s := by decide

theorem dirInit0_read (d : FSDevice) (name : List Nat) (first : BlockRef) (nb : Nat) :
    (dirInit d 358 0 name first nb).data 358 2 = 0x82 ∧
    (dirInit d 358 0 name first nb).data 358 3 = first.t % 256 ∧
    (dirInit d 358 0 name first nb).data 358 4 = first.s % 256 ∧
    (dirInit d 358 0 name first nb).data 358 30 = nb % 256 ∧
    (dirInit d 358 0 name first nb).data 358 31 = nb / 256 % 256 := by
  have hsplit : dirInitWrites 0 name first nb =
      ([(32 * 0 + 2, 0x82), (32 * 0 + 3, first.t), (32 * 0 + 4, first.s)] ++
        (List.range 16).map (fun k => (32 * 0 + 5 + k, name.getD k 0xA0))) ++
      [(32 * 0 + 30, nb % 256), (32 * 0 + 31, nb / 256 % 256)] := by
    unfold dirInitWrites
    rw [List.append_assoc]
  have hname : ∀ p ∈ (List.range 16).map
      (fun k => (32 * 0 + 5 + k, name.getD k 0xA0)), 5 ≤ p.1 ∧ p.1 ≤ 20 := by
    intro p hp
    simp at hp
    obtain ⟨k, hk, hp⟩ := hp
    rw [← hp]
    simp
    omega
  clear hsplit hname
  have hr16 : List.range 16 = [0, 1, 2, 3, 4, 5, 6, 7, 8, 9, 10, 11, 12, 13, 14, 15] := rfl
  refine ⟨?_, ?_, ?_, ?_, ?_⟩ <;>
    · unfold dirInit dirInitWrites writeBytes
      rw [hr16]
      norm_num [data_upd, List.foldl_cons, List.foldl_nil]

/-- C2: on a freshly formatted disk, makeFile with a payload of cnt
bytes (0 < cnt ≤ 164 * 254) succeeds: it returns true, allocates
ceil(cnt / 254) blocks along the interleave walk from track 1 sector 0,
ends the chain with a zero link, fills the first slot of the directory
block (18, 1) with file type 0x82, first block (1, 0) and the block
count, the directory scan reports exactly that entry, and reading the
chain back returns the payload. -/
theorem C2_makeFile_roundtrip (name buf : List Nat)
    (hpos : 0 < buf.length) (hmax : buf.length ≤ 164 * 254)
    (hbytes : ∀ x ∈ buf, x < 256) :
    (makeFile formatD64 name buf).1 = true ∧
    (allocate formatD64 ⟨1, 0⟩ ((buf.length + 253) / 254)).1.length =
      (buf.length + 253) / 254 ∧
    (makeFile formatD64 name buf).2.data
      (tsToBlock (iterTS ((buf.length + 253) / 254 - 1) ⟨1, 0⟩).t
        (iterTS ((buf.length + 253) / 254 - 1) ⟨1, 0⟩).s) 0 = 0 ∧
    (makeFile formatD64 name buf).2.data
      (tsToBlock (iterTS ((buf.length + 253) / 254 - 1) ⟨1, 0⟩).t
        (iterTS ((buf.length + 253) / 254 - 1) ⟨1, 0⟩).s) 1 = 0 ∧
    scanDirectory (makeFile formatD64 name buf).2 false = [(358, 0)] ∧
    (makeFile formatD64 name buf).2.data 358 2 = 0x82 ∧
    (makeFile formatD64 name buf).2.data 358 3 = 1 ∧
    (makeFile formatD64 name buf).2.data 358 4 = 0 ∧
    (makeFile formatD64 name buf).2.data 358 30 = (buf.length + 253) / 254 ∧
    (makeFile formatD64 name buf).2.data 358 31 = 0 ∧
    (readChain (makeFile formatD64 name buf).2 ⟨1, 0⟩).take buf.length = buf := by
  set N := (buf.length + 253) / 254 with hN
  have hn1 : 1 ≤ N := by omega
  have hn164 : N ≤ 164 := by omega
  have hcntle : buf.length ≤ 254 * N := by omega
  have hr0t : (nextFreeBlock formatD64 ⟨1, 0⟩).t ≠ 0 := by
    rw [nextFreeBlock_format]
    decide
  have hrefs : (allocate formatD64 ⟨1, 0⟩ N).1 =
      (List.range N).map (fun i => iterTS i ⟨1, 0⟩) := by
    rw [allocate_fst, nextFreeBlock_format]
    rw [if_neg (show ¬(⟨1, 0⟩ : BlockRef).t = 0 from by decide)]
  have hne_nil : (allocate formatD64 ⟨1, 0⟩ N).1.isEmpty = false := by
    rw [hrefs]
    rcases hnn : (List.range N).map (fun i => iterTS i (⟨1, 0⟩ : BlockRef)) with _ | ⟨a, l⟩
    · exfalso
      rw [List.map_eq_nil_iff, List.range_eq_nil] at hnn
      omega
    · rfl
  have hheadD : (allocate formatD64 ⟨1, 0⟩ N).1.headD ⟨0, 0⟩ = (⟨1, 0⟩ : BlockRef) := by
    rw [hrefs]
    obtain ⟨m, hm⟩ : ∃ m, N = m + 1 := ⟨N - 1, by omega⟩
    rw [hm, List.range_succ_eq_map, List.map_cons]
    rfl
  have hmk : makeFile formatD64 name buf =
      (true, dirInit (writeData (allocate formatD64 ⟨1, 0⟩ N).2
        (allocate formatD64 ⟨1, 0⟩ N).1 buf) 358 0 name ⟨1, 0⟩ N) := by
    unfold makeFile
    rw [findSlot_format]
    show makeFileAt formatD64 358 0 name buf = _
    unfold makeFileAt
    dsimp only
    rw [← hN]
    rw [if_neg (show ¬((allocate formatD64 ⟨1, 0⟩ N).1.isEmpty = true) from by
      rw [hne_nil]
      exact Bool.false_ne_true)]
    rw [hheadD]
  have hmk1 : (makeFile formatD64 name buf).1 = true := by rw [hmk]
  have hmk2 : (makeFile formatD64 name buf).2 =
      dirInit (writeData (allocate formatD64 ⟨1, 0⟩ N).2
        (allocate formatD64 ⟨1, 0⟩ N).1 buf) 358 0 name ⟨1, 0⟩ N := by
    rw [hmk]
  rw [hmk1, hmk2, hrefs]
  set L := (List.range N).map (fun i => iterTS i (⟨1, 0⟩ : BlockRef)) with hL
  set d2 := (allocate formatD64 (⟨1, 0⟩ : BlockRef) N).2 with hd2
  set dW := writeData d2 L buf with hdW
  set df := dirInit dW 358 0 name (⟨1, 0⟩ : BlockRef) N with hdf
  have hvalp : ∀ i, i < N →
      isTrackSectorPair (iterTS i ⟨1, 0⟩).t (iterTS i ⟨1, 0⟩).s = true :=
    fun i hi => walk_valid_164 i (by omega)
  have h18 : ∀ i, (iterTS i (⟨1, 0⟩ : BlockRef)).t ≠ 18 :=
    fun i => iterTS_ne18 i ⟨1, 0⟩ (by decide)
  have hdist : ∀ p q, p < N → q < N → p ≠ q →
      tsToBlock (iterTS p ⟨1, 0⟩).t (iterTS p ⟨1, 0⟩).s ≠
        tsToBlock (iterTS q ⟨1, 0⟩).t (iterTS q ⟨1, 0⟩).s :=
    fun p q hp hq hpq => walk_distinct_164 p (by omega) q (by omega) hpq
  have hlt683 : ∀ i, i < N →
      tsToBlock (iterTS i ⟨1, 0⟩).t (iterTS i ⟨1, 0⟩).s < 683 :=
    fun i hi => tsToBlock_lt683 _ _ (hvalp i hi)
  have hne357 : ∀ i, i < N →
      tsToBlock (iterTS i ⟨1, 0⟩).t (iterTS i ⟨1, 0⟩).s ≠ 357 ∧
      tsToBlock (iterTS i ⟨1, 0⟩).t (iterTS i ⟨1, 0⟩).s ≠ 358 :=
    fun i hi => tsToBlock_ne_dirBam _ _ (hvalp i hi) (h18 i)
  have hsnd : d2 = setLink (allocGo N formatD64 ⟨1, 0⟩).2 (iterTS (N - 1) ⟨1, 0⟩) ⟨0, 0⟩ := by
    rw [hd2]
    have h := allocate_snd_eq formatD64 N (by omega) hr0t
    rw [nextFreeBlock_format] at h
    exact h
  have hlink2 : ∀ c, c + 1 < N →
      d2.data (tsToBlock (iterTS c ⟨1, 0⟩).t (iterTS c ⟨1, 0⟩).s) 0 =
        (iterTS (c + 1) ⟨1, 0⟩).t ∧
      d2.data (tsToBlock (iterTS c ⟨1, 0⟩).t (iterTS c ⟨1, 0⟩).s) 1 =
        (iterTS (c + 1) ⟨1, 0⟩).s := by
    intro c hc
    have hb := isTrackSectorPair_elim _ _ (hvalp (c + 1) (by omega))
    have hs21 : (iterTS (c + 1) (⟨1, 0⟩ : BlockRef)).s < 21 :=
      lt_of_lt_of_le hb.2 (sectorsPerTrack_le _)
    have hneq : tsToBlock (iterTS c ⟨1, 0⟩).t (iterTS c ⟨1, 0⟩).s ≠
        tsToBlock (iterTS (N - 1) ⟨1, 0⟩).t (iterTS (N - 1) ⟨1, 0⟩).s :=
      hdist c (N - 1) (by omega) (by omega) (by omega)
    have hlk := allocGo_link_at c N formatD64 ⟨1, 0⟩ (by omega) (hvalp c (by omega)) (h18 c)
      (fun j hj1 hj2 => hdist j c (by omega) (by omega) (by omega))
    rw [hsnd]
    constructor
    · rw [setLink_data_ne _ _ _ _ _ hneq, hlk.1]
      exact Nat.mod_eq_of_lt (by omega)
    · rw [setLink_data_ne _ _ _ _ _ hneq, hlk.2]
      exact Nat.mod_eq_of_lt (by omega)
  have hlast2 : d2.data (tsToBlock (iterTS (N - 1) ⟨1, 0⟩).t (iterTS (N - 1) ⟨1, 0⟩).s) 0 = 0 ∧
      d2.data (tsToBlock (iterTS (N - 1) ⟨1, 0⟩).t (iterTS (N - 1) ⟨1, 0⟩).s) 1 = 0 := by
    rw [hsnd]
    have h := setLink_read (allocGo N formatD64 ⟨1, 0⟩).2 (iterTS (N - 1) ⟨1, 0⟩) ⟨0, 0⟩
      (hvalp (N - 1) (by omega))
    simpa using h
  have hframe2 : ∀ b o, b ≠ 357 → 2 ≤ o → d2.data b o = formatD64.data b o := by
    intro b o hb ho
    rw [hd2]
    exact allocate_frame_hi formatD64 ⟨1, 0⟩ N b o hb ho
  have hLlen : L.length = N := by
    rw [hL]
    simp
  have hLget : ∀ p, p < N → L.getD p ⟨0, 0⟩ = iterTS p ⟨1, 0⟩ := by
    intro p hp
    rw [hL, List.getD_eq_getElem _ _ (by simpa using hp), List.getElem_map,
      List.getElem_range]
  have hLval : ∀ x ∈ L, isValidRef x = true := by
    intro x hx
    rw [hL] at hx
    simp at hx
    obtain ⟨i, hi, rfl⟩ := hx
    exact walk_valid_164 i (by omega)
  have hLdist : ∀ p q : Nat, p < L.length → q < L.length → p ≠ q →
      tsToBlock (L.getD p ⟨0, 0⟩).t (L.getD p ⟨0, 0⟩).s ≠
        tsToBlock (L.getD q ⟨0, 0⟩).t (L.getD q ⟨0, 0⟩).s := by
    intro p q hp hq hpq
    rw [hLlen] at hp hq
    rw [hLget p hp, hLget q hq]
    exact hdist p q hp hq hpq
  have hWread : ∀ p, p < buf.length →
      dW.data (tsToBlock (iterTS (p / 254) ⟨1, 0⟩).t (iterTS (p / 254) ⟨1, 0⟩).s)
        (2 + p % 254) = buf.getD p 0 := by
    intro p hp
    have hpN : p / 254 < N := by omega
    have h := writeData_read d2 L buf (by rw [hLlen]; omega) hLval hLdist p hp
    have hc : chunkBlock L p = iterTS (p / 254) ⟨1, 0⟩ := by
      unfold chunkBlock
      exact hLget _ hpN
    rw [hc, show chunkOff p = 2 + p % 254 from rfl] at h
    have hbv : buf.getD p 0 < 256 := by
      rw [List.getD_eq_getElem _ _ hp]
      exact hbytes _ (List.getElem_mem _)
    rw [Nat.mod_eq_of_lt hbv] at h
    rw [hdW]
    exact h
  have hWlow : ∀ b o, o < 2 → dW.data b o = d2.data b o := by
    intro b o ho
    rw [hdW]
    apply writeData_frame
    intro i hi hc
    have h2 := hc.2
    rw [show chunkOff i = 2 + i % 254 from rfl] at h2
    omega
  have hW358 : ∀ o, dW.data 358 o = d2.data 358 o := by
    intro o
    rw [hdW]
    apply writeData_frame
    intro i hi hc
    have hiN : i / 254 < N := by omega
    have hcb : chunkBlock L i = iterTS (i / 254) ⟨1, 0⟩ := by
      unfold chunkBlock
      exact hLget _ hiN
    have h1 := hc.1
    rw [hcb] at h1
    exact (hne357 (i / 254) hiN).2 h1.symm
  have hdr := dirInit0_read dW name ⟨1, 0⟩ N
  rw [← hdf] at hdr
  have hdf2 : df.data 358 2 = 0x82 := hdr.1
  have hdf3 : df.data 358 3 = 1 := by simpa using hdr.2.1
  have hdf4 : df.data 358 4 = 0 := by simpa using hdr.2.2.1
  have hdf30 : df.data 358 30 = N := by
    have h := hdr.2.2.2.1
    rwa [Nat.mod_eq_of_lt (by omega)] at h
  have hdf31 : df.data 358 31 = 0 := by
    have h := hdr.2.2.2.2
    rwa [show N / 256 % 256 = 0 from by omega] at h
  have hdfb : ∀ b o, b ≠ 358 → df.data b o = dW.data b o := by
    intro b o hb
    rw [hdf]
    exact dirInit0_frame_block dW name ⟨1, 0⟩ N b o hb
  have hdf34 : df.data 358 34 = 0 := by
    rw [hdf, dirInit0_frame_off dW name ⟨1, 0⟩ N 358 34 (by omega)]
    rw [hW358 34, hframe2 358 34 (by omega) (by omega)]
    rfl
  have hnum : df.numBlocks = 683 := by
    rw [hdf, dirInit_numBlocks, hdW, writeData_numBlocks, hd2, allocate_numBlocks]
    rfl
  have hdflink : ∀ c, c + 1 < N →
      df.data (tsToBlock (iterTS c ⟨1, 0⟩).t (iterTS c ⟨1, 0⟩).s) 0 =
        (iterTS (c + 1) ⟨1, 0⟩).t ∧
      df.data (tsToBlock (iterTS c ⟨1, 0⟩).t (iterTS c ⟨1, 0⟩).s) 1 =
        (iterTS (c + 1) ⟨1, 0⟩).s := by
    intro c hc
    have hb358 := (hne357 c (by omega)).2
    constructor
    · rw [hdfb _ _ hb358, hWlow _ 0 (by omega)]
      exact (hlink2 c hc).1
    · rw [hdfb _ _ hb358, hWlow _ 1 (by omega)]
      exact (hlink2 c hc).2
  have hdflast : df.data (tsToBlock (iterTS (N - 1) ⟨1, 0⟩).t (iterTS (N - 1) ⟨1, 0⟩).s) 0 = 0 := by
    rw [hdfb _ _ ((hne357 (N - 1) (by omega)).2), hWlow _ 0 (by omega)]
    exact hlast2.1
  have hdflast1 : df.data (tsToBlock (iterTS (N - 1) ⟨1, 0⟩).t (iterTS (N - 1) ⟨1, 0⟩).s) 1 = 0 := by
    rw [hdfb _ _ ((hne357 (N - 1) (by omega)).2), hWlow _ 1 (by omega)]
    exact hlast2.2
  have hbPtr : blockPtrTS df 18 1 = some 358 := by
    unfold blockPtrTS
    rw [blockNrOf_valid 18 1 (by decide)]
    show blockPtr df (tsToBlock 18 1) = some 358
    unfold blockPtr
    rw [if_pos (show tsToBlock 18 1 < df.numBlocks from by rw [hnum]; decide)]
    decide
  have hscan : scanDirectory df false = [(358, 0)] := by
    unfold scanDirectory
    rw [hbPtr, show (144 : Nat) = 143 + 1 from rfl, scanGo_step]
    have he0 : dirEntryEmpty df 358 (0 % 8) = false := by
      unfold dirEntryEmpty
      norm_num [hdf2]
    have he1 : dirEntryEmpty df 358 ((0 + 1) % 8) = true := by
      unfold dirEntryEmpty
      norm_num [hdf34]
    rw [if_neg (show ¬(dirEntryEmpty df 358 (0 % 8) = true) from by
      rw [he0]
      exact Bool.false_ne_true)]
    rw [if_neg (show ¬((false && dirEntryHidden df 358 (0 % 8)) = true) from by simp)]
    rw [if_neg (show ¬((0 : Nat) % 8 = 7) from by norm_num)]
    rw [show (143 : Nat) = 142 + 1 from rfl, scanGo_step, if_pos he1]
    rfl
  have hrc : readChain df ⟨1, 0⟩ =
      ((List.range N).map (fun m =>
        readBlockPayload df (tsToBlock (iterTS m ⟨1, 0⟩).t (iterTS m ⟨1, 0⟩).s))).flatten := by
    unfold readChain
    have hb0 : blockPtrTS df 1 0 = some (tsToBlock 1 0) := by
      unfold blockPtrTS
      rw [blockNrOf_valid 1 0 (by decide)]
      show blockPtr df (tsToBlock 1 0) = some (tsToBlock 1 0)
      unfold blockPtr
      rw [if_pos (show tsToBlock 1 0 < df.numBlocks from by rw [hnum]; decide)]
    rw [hb0]
    have h := readChainGo_chain df N (fun c => iterTS c ⟨1, 0⟩) hvalp
      (fun c hc => by rw [hnum]; exact hlt683 c hc) hdflink hdflast 200 0 (by omega) (by omega)
    simp only [Nat.zero_add, Nat.sub_zero] at h
    exact h
  refine ⟨rfl, hLlen, hdflast, hdflast1, hscan, hdf2, hdf3, hdf4, hdf30, hdf31, ?_⟩
  rw [hrc]
  have hflat := flat254 (fun m =>
    readBlockPayload df (tsToBlock (iterTS m ⟨1, 0⟩).t (iterTS m ⟨1, 0⟩).s)) N
    (fun m hm => readBlockPayload_length df _)
  apply List.ext_getElem
  · rw [List.length_take, hflat.1]
    omega
  · intro p hp1 hp2
    rw [List.getElem_take]
    have hgd := hflat.2 p (by omega)
    dsimp only at hgd
    rw [readBlockPayload_getD df _ (p % 254) (by omega)] at hgd
    rw [hdfb _ _ ((hne357 (p / 254) (by omega)).2)] at hgd
    rw [hWread p (by omega)] at hgd
    rw [List.getD_eq_getElem _ _ (by rw [hflat.1]; omega),
      List.getD_eq_getElem _ _ hp2] at hgd
    exact hgd

theorem C2_witness :
    0 < ([1, 2, 3] : List Nat).length ∧
    (makeFile formatD64 [72, 73] [1, 2, 3]).1 = true ∧
    (readChain (makeFile formatD64 [72, 73] [1, 2, 3]).2 ⟨1, 0⟩).take
      ([1, 2, 3] : List Nat).length = [1, 2, 3] := by
  have h := C2_makeFile_roundtrip [72, 73] [1, 2, 3] (by decide) (by decide) (by decide)
  exact ⟨by decide, h.1, h.2.2.2.2.2.2.2.2.2.2⟩

end VC64
